import Mathlib

/-!
The instrumenting logger of ethereum-inspector

A shallow embedding of `instrumenting/logging.go` and a verification of its
address registry (`nextID`, `idMapping`, `SetNextId`, `getID`), its operation
buckets (`LogCreate` .. `LogOpSelfdestruct`) and its writers (`writeCall`,
`nonEmptyCalls`, `WriteCalls`, `WriteCreatedContracts`, `WriteBlockHeader`,
`WriteGenesis`).

Conventions of the embedding.

* A Go `map[K]V` is a key-duplicate-free association list.  The order of the
  list stands for the order in which one `range` enumerates the map, which Go
  leaves unspecified and draws anew at every `range`; statements quantify over
  every such list, and a later `range` over the same map is a list of the same
  content (`GoMap.sameContent`), in whatever order.
* `uint64`, `uint32` and `uint8` values are natural numbers and every
  increment is taken modulo the width of the type.
* A `*bufio.Writer` is `Option String`: `none` is the nil pointer, `some t`
  is the text written so far.  Writing through a nil pointer panics; a
  panicking call returns `none`.
* The package-level variables `nextID` and `idMapping` are the record
  `Registry`, passed explicitly.
* Text is a Lean `String`; where Go counts bytes (`len(s)`, the scanner's
  token limit) the embedding counts UTF-8 bytes.
* A `*[]byte` is a pointer, `Option Nat`; what it points to is read through a
  heap `Nat → List Byte` that the functions dereferencing it take.
* The hash function inside `Address.Hex` is a parameter.
-/

namespace Instrumenting

/-! ## Go maps -/

/-- Lookup in an association list: the value of the first entry with key `k`. -/
def assocGet {K V : Type} [DecidableEq K] (k : K) : List (K × V) → Option V
  | [] => none
  | (k1, v1) :: rest => if k1 = k then some v1 else assocGet k rest

/-- Assignment in an association list: an existing entry for `k` is
overwritten in place, a new key is added at the end. -/
def assocSet {K V : Type} [DecidableEq K] (k : K) (v : V) : List (K × V) → List (K × V)
  | [] => [(k, v)]
  | (k1, v1) :: rest => if k1 = k then (k, v) :: rest else (k1, v1) :: assocSet k v rest

/-- A Go map: an association list without duplicate keys. -/
structure GoMap (K V : Type) where
  entries : List (K × V)
  nodup : (entries.map Prod.fst).Nodup

namespace GoMap

variable {K V : Type} [DecidableEq K]

/-- The result of `make(map[K]V)`. -/
def empty : GoMap K V := ⟨[], List.nodup_nil⟩

/-- The comma-ok lookup `val, ok := m[k]`. -/
def get? (m : GoMap K V) (k : K) : Option V := assocGet k m.entries

/-- The plain lookup `m[k]`, which yields the zero value of a missing key. -/
def getD (m : GoMap K V) (k : K) (zero : V) : V := (m.get? k).getD zero

/-- The assignment `m[k] = v`. -/
def set (m : GoMap K V) (k : K) (v : V) : GoMap K V :=
  ⟨assocSet k v m.entries, by
    have h := m.nodup
    generalize m.entries = l at h
    induction l with
    | nil => simp [assocSet]
    | cons p rest ih =>
      obtain ⟨k1, v1⟩ := p
      simp only [List.map_cons, List.nodup_cons] at h
      by_cases hk : k1 = k
      · subst hk
        simpa [assocSet] using h
      · have hmem : ∀ l : List (K × V), k1 ∉ l.map Prod.fst →
            k1 ∉ (assocSet k v l).map Prod.fst := by
          intro l
          induction l with
          | nil =>
            intro _
            simp [assocSet, hk]
          | cons q rest2 ih2 =>
            obtain ⟨k2, v2⟩ := q
            intro hq
            simp only [List.map_cons, List.mem_cons, not_or] at hq
            by_cases hk2 : k2 = k
            · simp only [assocSet, hk2, if_true, List.map_cons, List.mem_cons, not_or]
              exact ⟨hk, hq.2⟩
            · simp only [assocSet, hk2, if_false, List.map_cons, List.mem_cons, not_or]
              exact ⟨hq.1, ih2 hq.2⟩
        simp only [assocSet, hk, if_false, List.map_cons, List.nodup_cons]
        exact ⟨hmem rest h.1, ih h.2⟩⟩

/-- The keys, in the order of one enumeration (`for k := range m`).  Go draws the
order anew at each `range`: another enumeration of the same map is the `keys` of
a map of the same content. -/
def keys (m : GoMap K V) : List K := m.entries.map Prod.fst

/-- Two lists that stand for the same Go map: every key has the same value in
both.  They may differ in the order of enumeration. -/
def sameContent (m1 m2 : GoMap K V) : Prop := ∀ k, m1.get? k = m2.get? k

/-- The builtin `len(m)`. -/
def len (m : GoMap K V) : Nat := m.entries.length

end GoMap

/-! ## Bytes, hexadecimal text and addresses (go-ethereum `common`) -/

/-- A byte. -/
abbrev Byte := Fin 256

/-- The type `common.Address`, that is `[20]byte`. -/
structure Address where
  bytes : List Byte
  size : bytes.length = 20
  deriving DecidableEq

/-- The number of bytes of the UTF-8 encoding of a text: Go's `len` on a string. -/
def byteLen (l : List Char) : Nat := (l.map Char.utf8Size).sum

/-- The digit table of `fmt` for the verb `%x`. -/
def ldigits : List Char := ['0', '1', '2', '3', '4', '5', '6', '7', '8', '9',
  'a', 'b', 'c', 'd', 'e', 'f']

/-- The hexadecimal digit of a value below 16. -/
def hexDigit (n : Nat) : Char := ldigits.getD n '0'

/-- The verb `%x` applied to a byte slice: two lower-case digits per byte. -/
def fmtHexBytes : List Byte → List Char
  | [] => []
  | b :: rest => hexDigit (b.val / 16) :: hexDigit (b.val % 16) :: fmtHexBytes rest

/-- The verb `%x` applied to an address (`Address.Format` prints the twenty
bytes as a slice): forty lower-case hexadecimal digits. -/
def Address.fmtHex (a : Address) : String := String.mk (fmtHexBytes a.bytes)

/-- The value of a hexadecimal digit, `none` for any other character
(`encoding/hex`). -/
def fromHexChar (c : Char) : Option Nat :=
  if 48 ≤ c.toNat ∧ c.toNat ≤ 57 then some (c.toNat - 48)
  else if 97 ≤ c.toNat ∧ c.toNat ≤ 102 then some (c.toNat - 97 + 10)
  else if 65 ≤ c.toNat ∧ c.toNat ≤ 70 then some (c.toNat - 65 + 10)
  else none

/-- The call `hex.DecodeString` with its error dropped, as `common.Hex2Bytes`
uses it: the bytes decoded before the first character that is no digit. -/
def Hex2Bytes : List Char → List Byte
  | c1 :: c2 :: rest =>
    match fromHexChar c1, fromHexChar c2 with
    | some a, some b => Fin.ofNat (a * 16 + b) :: Hex2Bytes rest
    | _, _ => []
  | _ => []

/-- The function `common.FromHex`: an optional `0x` or `0X` is dropped, a text of odd
length gets a leading `0`, and the digits are decoded. -/
def FromHex (s : List Char) : List Byte :=
  let s1 := match s with
    | '0' :: 'x' :: r => r
    | '0' :: 'X' :: r => r
    | _ => s
  let s2 := if byteLen s1 % 2 = 1 then '0' :: s1 else s1
  Hex2Bytes s2

/-- The function `common.BytesToAddress`: the last twenty bytes of `b`, padded with
zero bytes on the left. -/
def BytesToAddress (b : List Byte) : Address :=
  ⟨List.replicate (20 - b.length) 0 ++ b.drop (b.length - 20), by
    simp only [List.length_append, List.length_replicate, List.length_drop]
    omega⟩

/-- The function `common.HexToAddress`. -/
def HexToAddress (s : String) : Address := BytesToAddress (FromHex s.data)

/-! ## The line scanner (`bufio.Scanner` with `bufio.ScanLines`) -/

/-- The constant `bufio.MaxScanTokenSize`. -/
def MaxScanTokenSize : Nat := 65536

/-- The helper `dropCR` of `bufio`: one trailing carriage return is removed. -/
def dropCR (l : List Char) : List Char :=
  if l.getLast? = some '\r' then l.dropLast else l

/-- The tokens of `for scanner.Scan()`.  `cur` holds, in reverse, the
characters of the line being read.  A line ends at a newline or at the end of
the input (a last line that is empty is no token); a line of
`MaxScanTokenSize` bytes or more makes `Scan` fail, which ends the loop. -/
def scanLinesAux (cur : List Char) : List Char → List String
  | [] =>
    if cur = [] then []
    else if MaxScanTokenSize ≤ byteLen cur then []
    else [String.mk (dropCR cur.reverse)]
  | c :: rest =>
    if c = '\n' then
      if MaxScanTokenSize ≤ byteLen cur then []
      else String.mk (dropCR cur.reverse) :: scanLinesAux [] rest
    else scanLinesAux (c :: cur) rest

/-- The lines a scanner yields on a file with content `text`. -/
def scanLines (text : String) : List String := scanLinesAux [] text.data

/-! ## The data of the logger -/

/-- The type `methodType` (a `uint8`). -/
abbrev methodType := Nat

def createType : methodType := 0
def callType : methodType := 1
def callcodeType : methodType := 2
def delegateCallType : methodType := 3
def staticCallType : methodType := 4
def preCompiledType : methodType := 5
def opSelfdestructType : methodType := 6

/-- A value of type `*big.Int`: `none` is the nil pointer. -/
abbrev BigInt := Option Int

/-- The method `(*big.Int).String`: the decimal digits, `<nil>` for a nil pointer. -/
def BigInt.String : BigInt → String
  | none => "<nil>"
  | some i => toString i

/-- The struct `CoinbaseReward`. -/
structure CoinbaseReward where
  Coinbase : Address
  Reward : BigInt
  deriving DecidableEq

/-- The struct `logStruct`.  The field `code` is a `*[]byte`: `none` is nil and
`some p` is the pointer `p`; two keys are equal when the pointers are, as Go
compares them. -/
structure logStruct where
  from_ : Nat
  to_ : Nat
  value : String
  code : Option Nat
  deriving DecidableEq

/-- The type `common.StorageSize`, restricted to whole byte counts (what the
callers pass), for which the verb `%.0f` prints the decimal digits. -/
abbrev StorageSize := Nat

/-- A bucket: `map[logStruct]uint32`. -/
abbrev Bucket := GoMap logStruct Nat

/-- The struct `Stats`. -/
structure Stats where
  create : Bucket
  call : Bucket
  callCode : Bucket
  delegateCall : Bucket
  staticCall : Bucket
  preCompiledCode : Bucket
  opSelfdestruct : Bucket
  failed : Bool
  size : StorageSize
  coinbaseReward : List CoinbaseReward
  LogBlocksFile : Option String
  LogTransactionsFile : Option String
  LogCreatedContractsFile : Option String
  idMappingsFile : Option String
  dontLog : Bool

/-- The package-level variables `nextID` and `idMapping`. -/
structure Registry where
  nextID : Nat
  idMapping : GoMap Address Nat

/-- The registry at program start: `nextID` is 0 and `idMapping` is empty. -/
def Registry.init : Registry := ⟨0, GoMap.empty⟩

/-- The function `NewStats`: seven empty buckets, the four targets as given, and `dontLog`
set when one of the targets is nil. -/
def NewStats (_logBlocksFile _logTransactionsFile _logCreatedContractsFile
    _idMappingsFile : Option String) : Stats :=
  let dontLog := false
  let dontLog :=
    if _logBlocksFile = none ∨ _logTransactionsFile = none ∨
        _logCreatedContractsFile = none ∨ _idMappingsFile = none then true
    else dontLog
  { call := GoMap.empty
    create := GoMap.empty
    callCode := GoMap.empty
    delegateCall := GoMap.empty
    staticCall := GoMap.empty
    preCompiledCode := GoMap.empty
    opSelfdestruct := GoMap.empty
    failed := false
    size := 0
    coinbaseReward := []
    LogBlocksFile := _logBlocksFile
    LogTransactionsFile := _logTransactionsFile
    LogCreatedContractsFile := _logCreatedContractsFile
    idMappingsFile := _idMappingsFile
    dontLog := dontLog }

/-! ## The address registry -/

/-- The loop of `SetNextId` over the scanned lines. -/
def SetNextIdLoop : List String → Registry → Registry
  | [], r => r
  | line :: rest, r =>
    SetNextIdLoop rest
      ⟨(r.nextID + 1) % 2 ^ 64, r.idMapping.set (HexToAddress line) r.nextID⟩

/-- The function `SetNextId` on a file with content `text`: the counter is reset and
every line is given the next identifier.  (The message printed to the
standard output is left out.) -/
def SetNextId (text : String) (r : Registry) : Registry :=
  SetNextIdLoop (scanLines text) ⟨0, r.idMapping⟩

/-- The method `Stats.getID`.  The result is the identifier with the new `Stats` and
registry, or `none` when the call panics (logging on and no mapping file). -/
def getID (stats : Stats) (r : Registry) (address : Address) :
    Option (Nat × Stats × Registry) :=
  if stats.dontLog then some (0, stats, r)
  else
    match stats.idMappingsFile with
    | none => none
    | some f =>
      match r.idMapping.get? address with
      | some val => some (val, stats, r)
      | none =>
        some (r.nextID,
          { stats with idMappingsFile := some (f ++ address.fmtHex ++ "\n") },
          ⟨(r.nextID + 1) % 2 ^ 64, r.idMapping.set address r.nextID⟩)

/-! ## Runs of lookups -/

/-- A run of `getID` lookups, one after the other on the same `Stats` and
registry: the identifiers returned, in order, and the final state. -/
def getIDs : List Address → Stats → Registry → Option (List Nat × Stats × Registry)
  | [], stats, r => some ([], stats, r)
  | a :: rest, stats, r =>
    match getID stats r a with
    | none => none
    | some (i, s1, r1) =>
      match getIDs rest s1 r1 with
      | none => none
      | some (is, s2, r2) => some (i :: is, s2, r2)

/-- The number of lookups in a run that are of an address not yet known at the
time of the lookup, `seen` being the addresses known before the run. -/
def countFresh (seen : List Address) : List Address → Nat
  | [] => 0
  | a :: rest =>
    if a ∈ seen then countFresh seen rest else countFresh (a :: seen) rest + 1

/-- A `Stats` has logging enabled when `dontLog` is off and the mapping file is
present, as `NewStats` leaves it when all four targets are given. -/
def Stats.enabled (stats : Stats) : Prop :=
  stats.dontLog = false ∧ stats.idMappingsFile ≠ none

instance (stats : Stats) : Decidable stats.enabled :=
  inferInstanceAs (Decidable (stats.dontLog = false ∧ stats.idMappingsFile ≠ none))

/-- The text of a mapping store that holds one line for each entry of a registry
map, in the order of the entries. -/
def storeText : List (Address × Nat) → List Char
  | [] => []
  | p :: rest => fmtHexBytes p.1.bytes ++ '\n' :: storeText rest

/-- The registry invariant: every identifier in `idMapping` is below `nextID`, and no
two addresses share an identifier. -/
def Registry.invariant (r : Registry) : Prop :=
  (∀ a v, r.idMapping.get? a = some v → v < r.nextID) ∧
  (∀ a b v, r.idMapping.get? a = some v → r.idMapping.get? b = some v → a = b)

/-- A registry is dense when every number below `nextID` is the identifier of an
address. -/
def Registry.dense (r : Registry) : Prop :=
  ∀ i, i < r.nextID → ∃ a, r.idMapping.get? a = some i

/-! ## The operation buckets -/

/-- The statement `m[k]++` on a `map[logStruct]uint32`. -/
def incr (m : Bucket) (k : logStruct) : Bucket := m.set k ((m.getD k 0 + 1) % 2 ^ 32)

/-- The method `Stats.LogCreate`. -/
def LogCreate (stats : Stats) (r : Registry) (_from _to : Address) (_value : BigInt)
    (_code : Option Nat) : Option (Stats × Registry) := do
  let (f, s1, r1) ← getID stats r _from
  let (t, s2, r2) ← getID s1 r1 _to
  let callStat : logStruct := ⟨f, t, _value.String, _code⟩
  pure ({ s2 with create := incr s2.create callStat }, r2)

/-- The method `Stats.LogCall`. -/
def LogCall (stats : Stats) (r : Registry) (_from _to : Address) (_value : BigInt) :
    Option (Stats × Registry) := do
  let (f, s1, r1) ← getID stats r _from
  let (t, s2, r2) ← getID s1 r1 _to
  let callStat : logStruct := ⟨f, t, _value.String, none⟩
  pure ({ s2 with call := incr s2.call callStat }, r2)

/-- The method `Stats.LogCallCode`. -/
def LogCallCode (stats : Stats) (r : Registry) (_from _to : Address) (_value : BigInt) :
    Option (Stats × Registry) := do
  let (f, s1, r1) ← getID stats r _from
  let (t, s2, r2) ← getID s1 r1 _to
  let callStat : logStruct := ⟨f, t, _value.String, none⟩
  pure ({ s2 with callCode := incr s2.callCode callStat }, r2)

/-- The method `Stats.LogDelegateCall`. -/
def LogDelegateCall (stats : Stats) (r : Registry) (_from _to : Address) :
    Option (Stats × Registry) := do
  let (f, s1, r1) ← getID stats r _from
  let (t, s2, r2) ← getID s1 r1 _to
  let callStat : logStruct := ⟨f, t, "", none⟩
  pure ({ s2 with delegateCall := incr s2.delegateCall callStat }, r2)

/-- The method `Stats.LogStaticCall`. -/
def LogStaticCall (stats : Stats) (r : Registry) (_from _to : Address) :
    Option (Stats × Registry) := do
  let (f, s1, r1) ← getID stats r _from
  let (t, s2, r2) ← getID s1 r1 _to
  let callStat : logStruct := ⟨f, t, "", none⟩
  pure ({ s2 with staticCall := incr s2.staticCall callStat }, r2)

/-- The method `Stats.LogPreCompiledCode`. -/
def LogPreCompiledCode (stats : Stats) (r : Registry) (_from _to : Address) :
    Option (Stats × Registry) := do
  let (f, s1, r1) ← getID stats r _from
  let (t, s2, r2) ← getID s1 r1 _to
  let callStat : logStruct := ⟨f, t, "", none⟩
  pure ({ s2 with preCompiledCode := incr s2.preCompiledCode callStat }, r2)

/-- The method `Stats.LogOpSelfdestruct`. -/
def LogOpSelfdestruct (stats : Stats) (r : Registry) (_from _to : Address) (_value : BigInt) :
    Option (Stats × Registry) := do
  let (f, s1, r1) ← getID stats r _from
  let (t, s2, r2) ← getID s1 r1 _to
  let callStat : logStruct := ⟨f, t, _value.String, none⟩
  pure ({ s2 with opSelfdestruct := incr s2.opSelfdestruct callStat }, r2)

/-- The seven kind codes, in the order of their declaration. -/
def allKinds : List methodType :=
  [createType, callType, callcodeType, delegateCallType, staticCallType, preCompiledType,
    opSelfdestructType]

/-- The bucket of a kind: the field of `Stats` that `WriteCalls` passes to
`writeCall` together with that kind code. -/
def Stats.bucket (stats : Stats) : methodType → Bucket
  | 0 => stats.create
  | 1 => stats.call
  | 2 => stats.callCode
  | 3 => stats.delegateCall
  | 4 => stats.staticCall
  | 5 => stats.preCompiledCode
  | 6 => stats.opSelfdestruct
  | _ => GoMap.empty

/-- The Log operation of a kind, on the arguments that operation takes (the
value and the code are passed over by the operations that have no such
parameter).  A code that is no kind has no operation. -/
def logOp (kind : methodType) (stats : Stats) (r : Registry) (_from _to : Address)
    (_value : BigInt) (_code : Option Nat) : Option (Stats × Registry) :=
  match kind with
  | 0 => LogCreate stats r _from _to _value _code
  | 1 => LogCall stats r _from _to _value
  | 2 => LogCallCode stats r _from _to _value
  | 3 => LogDelegateCall stats r _from _to
  | 4 => LogStaticCall stats r _from _to
  | 5 => LogPreCompiledCode stats r _from _to
  | 6 => LogOpSelfdestruct stats r _from _to _value
  | _ => some (stats, r)

/-- The record a Log operation of a kind builds from resolved identifiers. -/
def recordOf (kind : methodType) (f t : Nat) (_value : BigInt) (_code : Option Nat) :
    logStruct :=
  match kind with
  | 0 => ⟨f, t, _value.String, _code⟩
  | 1 => ⟨f, t, _value.String, none⟩
  | 2 => ⟨f, t, _value.String, none⟩
  | 6 => ⟨f, t, _value.String, none⟩
  | _ => ⟨f, t, "", none⟩

/-- The same Log operation called `n` times in a row. -/
def logOpTimes (kind : methodType) (_from _to : Address) (_value : BigInt)
    (_code : Option Nat) : Nat → Stats → Registry → Option (Stats × Registry)
  | 0, stats, r => some (stats, r)
  | n + 1, stats, r =>
    match logOp kind stats r _from _to _value _code with
    | none => none
    | some (s1, r1) => logOpTimes kind _from _to _value _code n s1 r1

/-! ## The serializer -/

/-- The method `logStructRange.Less`, on the two elements `a[i]` and `a[j]`. -/
def Less (x y : logStruct) : Bool :=
  if x.from_ = y.from_ then
    if x.to_ = y.to_ then
      let bi : Int := 0
      let bj : Int := 0
      decide (bi < bj)
    else decide (x.to_ < y.to_)
  else decide (x.from_ < y.from_)

/-- The inner loop of the insertion sort of package `sort`: the element `x` moves
left over every element it is less than.  The sorted part is held in reverse,
its last element first. -/
def siftLeft {α : Type} (less : α → α → Bool) (x : α) : List α → List α
  | [] => [x]
  | y :: rest => if less x y then y :: siftLeft less x rest else x :: y :: rest

/-- The function `sort.Sort`, as the insertion sort that package `sort` runs on
a short slice.  What is proved of it below (the result is a permutation of the
input, in ascending order of `less`) is the contract of `sort.Sort` on slices of
every length; on ties `sort.Sort` promises no order. -/
def sortSort {α : Type} (less : α → α → Bool) (l : List α) : List α :=
  (l.foldl (fun sorted x => siftLeft less x sorted) []).reverse

/-- The function `hasValue`. -/
def hasValue (logType : methodType) : Bool :=
  if logType = callType ∨ logType = createType ∨ logType = callcodeType ∨
      logType = opSelfdestructType then
    true
  else false

/-- The three `Fprintf` calls of the loop body of `writeCall`: one record line. -/
def recordLine (logEntry : Bucket) (logType : methodType) (call : logStruct) : String :=
  (toString call.from_ ++ " " ++ toString call.to_)
    ++ (if hasValue logType then " " ++ call.value else "")
    ++ (" " ++ toString (logEntry.getD call 0) ++ "\n")

/-- The text `writeCall` writes for a non-empty bucket: the sub-header, then one
line for each key of the sorted key slice. -/
def writeCallText (logEntry : Bucket) (logType : methodType) : String :=
  (sortSort Less logEntry.keys).foldl
    (fun out call => out ++ recordLine logEntry logType call)
    (toString logType ++ " " ++ toString logEntry.len ++ "\n")

/-- The method `Stats.writeCall`: nothing happens on an empty bucket; otherwise the
text is written to `LogTransactionsFile`, which panics on a nil writer. -/
def writeCall (stats : Stats) (logEntry : Bucket) (logType : methodType) : Option Stats :=
  if logEntry.len ≠ 0 then
    match stats.LogTransactionsFile with
    | none => none
    | some t =>
      some { stats with LogTransactionsFile := some (t ++ writeCallText logEntry logType) }
  else some stats

/-- The method `Stats.nonEmptyCalls` (the total is a `uint8`). -/
def nonEmptyCalls (stats : Stats) : Nat :=
  let total := 0
  let total := if stats.create.len > 0 then (total + 1) % 256 else total
  let total := if stats.call.len > 0 then (total + 1) % 256 else total
  let total := if stats.callCode.len > 0 then (total + 1) % 256 else total
  let total := if stats.delegateCall.len > 0 then (total + 1) % 256 else total
  let total := if stats.staticCall.len > 0 then (total + 1) % 256 else total
  let total := if stats.preCompiledCode.len > 0 then (total + 1) % 256 else total
  let total := if stats.opSelfdestruct.len > 0 then (total + 1) % 256 else total
  total

/-- The header line of `WriteCalls`. -/
def headerLine (stats : Stats) : String :=
  let failed := if stats.failed then 1 else 0
  "T " ++ toString failed ++ " " ++ toString stats.size ++ " "
    ++ toString (nonEmptyCalls stats) ++ "\n"

/-- The method `Stats.WriteCalls`: the header line, then `writeCall` on the seven
buckets in the order of the source.  A nil `LogTransactionsFile` panics. -/
def WriteCalls (stats : Stats) : Option Stats :=
  match stats.LogTransactionsFile with
  | none => none
  | some t => do
    let s0 : Stats := { stats with LogTransactionsFile := some (t ++ headerLine stats) }
    let s1 ← writeCall s0 s0.create createType
    let s2 ← writeCall s1 s1.call callType
    let s3 ← writeCall s2 s2.callCode callcodeType
    let s4 ← writeCall s3 s3.delegateCall delegateCallType
    let s5 ← writeCall s4 s4.staticCall staticCallType
    let s6 ← writeCall s5 s5.preCompiledCode preCompiledType
    writeCall s6 s6.opSelfdestruct opSelfdestructType

/-! ## Reading the output -/

/-- The text made of the given pieces, one after the other. -/
def joinLines : List String → String
  | [] => ""
  | x :: rest => x ++ joinLines rest

/-- The order of the record lines: `fromID` ascending and, on equal `fromID`,
`toID` ascending. -/
def keyLE (x y : logStruct) : Prop :=
  x.from_ < y.from_ ∨ (x.from_ = y.from_ ∧ x.to_ ≤ y.to_)

instance (x y : logStruct) : Decidable (keyLE x y) :=
  inferInstanceAs (Decidable (x.from_ < y.from_ ∨ (x.from_ = y.from_ ∧ x.to_ ≤ y.to_)))

/-- The kinds whose bucket is not empty, in the order of the kind codes. -/
def nonEmptyKinds (stats : Stats) : List methodType :=
  allKinds.filter (fun k => decide ((stats.bucket k).len ≠ 0))

/-- A `Stats` on which the Log operations do not panic: logging is off, or the
mapping file is present. -/
def Stats.canLog (stats : Stats) : Prop :=
  stats.dontLog = true ∨ stats.idMappingsFile ≠ none

instance (stats : Stats) : Decidable stats.canLog :=
  inferInstanceAs (Decidable (stats.dontLog = true ∨ stats.idMappingsFile ≠ none))

/-- The `Stats` with the bucket of a kind replaced. -/
def Stats.withBucket (stats : Stats) (kind : methodType) (b : Bucket) : Stats :=
  match kind with
  | 0 => { stats with create := b }
  | 1 => { stats with call := b }
  | 2 => { stats with callCode := b }
  | 3 => { stats with delegateCall := b }
  | 4 => { stats with staticCall := b }
  | 5 => { stats with preCompiledCode := b }
  | 6 => { stats with opSelfdestruct := b }
  | _ => stats

/-- The address `a` resolves to `i` without a change of state: logging is off and
`i` is 0, or logging is enabled and the registry holds `i` for `a`. -/
def resolved (stats : Stats) (r : Registry) (a : Address) (i : Nat) : Prop :=
  (stats.dontLog = true ∧ i = 0) ∨ (stats.enabled ∧ r.idMapping.get? a = some i)

/-- A `Stats` with two creation records and one call record, on empty targets. -/
def exampleStats : Stats :=
  { NewStats (some "") (some "") (some "") (some "") with
    create := (GoMap.empty.set ⟨3, 1, "9", none⟩ 2).set ⟨1, 2, "5", none⟩ 1
    call := GoMap.empty.set ⟨4, 4, "0", none⟩ 1
    size := 7 }

/-- The address whose last byte is `n` and whose other bytes are zero. -/
def exampleAddress (n : Nat) : Address := BytesToAddress [Fin.ofNat n]

/-- A `Stats` as `NewStats` returns it when all four targets are given and empty. -/
def freshStats : Stats := NewStats (some "") (some "") (some "") (some "")

/-! ## The setters -/

/-- The method `Stats.SetSize`. -/
def SetSize (stats : Stats) (size : StorageSize) : Stats := { stats with size := size }

/-- The method `Stats.SetCoinbaseReward`. -/
def SetCoinbaseReward (stats : Stats) (coinbaseReward : List CoinbaseReward) : Stats :=
  { stats with coinbaseReward := coinbaseReward }

/-- The method `Stats.SetTxFailed`. -/
def SetTxFailed (stats : Stats) (failed : Bool) : Stats := { stats with failed := failed }

/-! ## The created-contracts writer -/

/-- The loop of `WriteCreatedContracts` over the keys of the creation bucket, in
enumeration order.  `heap p` is the byte slice the pointer `p` points to; a nil
`code` panics when it is dereferenced. -/
def WriteCreatedContractsLoop (heap : Nat → List Byte) : List logStruct → String → Option String
  | [], out => some out
  | call :: rest, out =>
    match call.code with
    | none => none
    | some p =>
      WriteCreatedContractsLoop heap rest
        (out ++ toString call.to_ ++ " 0x" ++ String.mk (fmtHexBytes (heap p)) ++ "\n")

/-- The method `Stats.WriteCreatedContracts`.  A nil `LogCreatedContractsFile` panics, in
`Fprintf` or, on an empty bucket, in the deferred `Flush`. -/
def WriteCreatedContracts (heap : Nat → List Byte) (stats : Stats) : Option Stats :=
  match stats.LogCreatedContractsFile with
  | none => none
  | some t =>
    match WriteCreatedContractsLoop heap stats.create.keys t with
    | none => none
    | some out => some { stats with LogCreatedContractsFile := some out }

/-! ## The block header writer -/

/-- What `WriteBlockHeader` reads of a `*types.Block`: the results of `Number()`,
`Time()` (a `*big.Int`), `GasUsed()`, `GasLimit()` and `Size()`. -/
structure Block where
  Number : Int
  Time : BigInt
  GasUsed : Nat
  GasLimit : Nat
  Size : StorageSize

/-- The loop of `WriteBlockHeader` over the coinbase rewards; `out` is the text of
`callPath`. -/
def WriteBlockHeaderLoop : List CoinbaseReward → String → Stats → Registry →
    Option (String × Stats × Registry)
  | [], out, stats, r => some (out, stats, r)
  | coinbaseReward :: rest, out, stats, r =>
    match getID stats r coinbaseReward.Coinbase with
    | none => none
    | some (coinbase, s1, r1) =>
      WriteBlockHeaderLoop rest
        (out ++ " " ++ toString coinbase ++ " " ++ coinbaseReward.Reward.String) s1 r1

/-- The method `Stats.WriteBlockHeader`.  The result holds the new text of `callPath`; a
nil `callPath` panics. -/
def WriteBlockHeader (stats : Stats) (r : Registry) (callPath : Option String) (block : Block)
    (nTransactions : Int) : Option (Option String × Stats × Registry) :=
  match callPath with
  | none => none
  | some t =>
    match WriteBlockHeaderLoop stats.coinbaseReward
        (t ++ "B " ++ toString block.Number ++ " " ++ block.Time.String ++ " "
          ++ toString block.GasUsed ++ " " ++ toString block.GasLimit ++ " "
          ++ toString block.Size ++ " " ++ toString stats.coinbaseReward.length)
        stats r with
    | none => none
    | some (out, s1, r1) => some (some (out ++ " " ++ toString nTransactions ++ "\n"), s1, r1)

/-! ## The genesis writer -/

/-- One step of the loop of `Address.Hex` (EIP-55): a letter is turned to upper
case when the matching half byte of the hash is above 7. -/
def checksumChar (c : Char) (hashByte : Nat) : Char :=
  if decide (c.toNat > 57) && decide (hashByte > 7) then Char.ofNat (c.toNat - 32) else c

/-- The loop of `Address.Hex` over the hex digits, from index `i` on. -/
def checksumChars (hash : List Byte) : Nat → List Char → List Char
  | _, [] => []
  | i, c :: rest =>
    let hashByte := (hash.getD (i / 2) 0).val
    let hashByte := if i % 2 = 0 then hashByte / 16 else hashByte % 16
    checksumChar c hashByte :: checksumChars hash (i + 1) rest

/-- The method `Address.Hex`: `0x` and the forty hex digits in the mixed case of
EIP-55.  The hash function of `crypto/sha3` is the parameter `Keccak256`. -/
def Address.Hex (Keccak256 : List Char → List Byte) (a : Address) : String :=
  "0x" ++ String.mk (checksumChars (Keccak256 (fmtHexBytes a.bytes)) 0 (fmtHexBytes a.bytes))

/-- The order `<` of Go strings, byte by byte, which on valid UTF-8 is the order
character by character. -/
def stringLess : List Char → List Char → Bool
  | _, [] => false
  | [], _ :: _ => true
  | c :: cs, d :: ds =>
    if c < d then true else if d < c then false else stringLess cs ds

/-- The function `sort.Strings`: `sort.Sort` with the order of strings. -/
def sortStrings (keys : List String) : List String :=
  sortSort (fun a b => stringLess a.data b.data) keys

/-- The second loop of `WriteGenesis`, over the sorted keys. -/
def WriteGenesisLoop (genesis : GoMap Address BigInt) : List String → Stats → Registry →
    Option (Stats × Registry)
  | [], stats, r => some (stats, r)
  | k :: rest, stats, r =>
    match getID stats r (HexToAddress k) with
    | none => none
    | some (id, s1, r1) =>
      match s1.LogBlocksFile with
      | none => none
      | some t =>
        WriteGenesisLoop genesis rest
          { s1 with LogBlocksFile := some (t ++ toString id ++ " "
              ++ (genesis.getD (HexToAddress k) none).String ++ "\n") } r1

/-- The method `Stats.WriteGenesis`.  A nil `LogBlocksFile` panics. -/
def WriteGenesis (Keccak256 : List Char → List Byte) (stats : Stats) (r : Registry)
    (genesis : GoMap Address BigInt) : Option (Stats × Registry) :=
  match stats.LogBlocksFile with
  | none => none
  | some t =>
    let keys := sortStrings (genesis.keys.map (Address.Hex Keccak256))
    WriteGenesisLoop genesis keys
      { stats with LogBlocksFile := some (t ++ "G " ++ toString genesis.len ++ "\n") } r

/-! ## Example states -/

/-- The registry after the single lookup of the address 1 from the empty registry. -/
def exampleRegistry : Registry := ⟨1, GoMap.empty.set (exampleAddress 1) 0⟩

/-- Two call records with the same `from` and `to` and the values 5 and 7. -/
def tieRecord5 : logStruct := ⟨1, 2, "5", none⟩

def tieRecord7 : logStruct := ⟨1, 2, "7", none⟩

/-- A call bucket that holds the two tied records, enumerated with the value 5
first. -/
def tieStats57 : Stats :=
  { freshStats with call := (GoMap.empty.set tieRecord5 1).set tieRecord7 1 }

/-- The same call bucket, enumerated with the value 7 first. -/
def tieStats75 : Stats :=
  { freshStats with call := (GoMap.empty.set tieRecord7 1).set tieRecord5 1 }

/-! ## Reading the output of the other writers -/

/-- The line of a creation record in the created-contracts file: the identifier of
the contract, `0x` and the lower-case hex digits of the code the pointer points
to. -/
def contractLine (heap : Nat → List Byte) (call : logStruct) : String :=
  toString call.to_ ++ " 0x" ++ String.mk (fmtHexBytes (heap (call.code.getD 0))) ++ "\n"

/-- The given fields, each with a space before it. -/
def spaced : List String → String
  | [] => ""
  | f :: rest => " " ++ f ++ spaced rest

/-- The given fields with a space between every two of them. -/
def joinFields : List String → String
  | [] => ""
  | f :: rest => f ++ spaced rest

/-- The fields of the coinbase rewards in a block header line: for each reward the
resolved identifier of the coinbase and the reward. -/
def rewardFields : List Nat → List CoinbaseReward → List String
  | i :: ids, c :: rest => toString i :: c.Reward.String :: rewardFields ids rest
  | _, _ => []

/-- The lines of the genesis file after its header: for each address its resolved
identifier and its balance in the allocation. -/
def genesisLines (genesis : GoMap Address BigInt) : List Nat → List Address → List String
  | i :: ids, a :: rest =>
    (toString i ++ " " ++ (genesis.getD a none).String ++ "\n") :: genesisLines genesis ids rest
  | _, _ => []

/-- The `Stats` of the test `TestWriteContract` after its `LogCreate`, as far as
`WriteCreatedContracts` reads it: one creation record from 0 to 0 with the
value 1 and the code pointer 0. -/
def createdStats : Stats :=
  { freshStats with create := GoMap.empty.set ⟨0, 0, "1", some 0⟩ 1 }

/-- A field: a text without a space and without a newline. -/
def isField (f : String) : Prop := ' ' ∉ f.data ∧ '\n' ∉ f.data

instance (f : String) : Decidable (isField f) :=
  inferInstanceAs (Decidable (' ' ∉ f.data ∧ '\n' ∉ f.data))

/-- The fields of the block header line. -/
def blockFields (block : Block) (rewards : List CoinbaseReward) (ids : List Nat)
    (nTransactions : Int) : List String :=
  ["B", toString block.Number, block.Time.String, toString block.GasUsed,
    toString block.GasLimit, toString block.Size, toString rewards.length]
    ++ rewardFields ids rewards ++ [toString nTransactions]

/-- An allocation of 100 to the address `..ab` and of 50 to the address `..0a`,
built in that order. -/
def exampleGenesis : GoMap Address BigInt :=
  (GoMap.empty.set (exampleAddress 171) (some 100)).set (exampleAddress 10) (some 50)

/-- A hash function for the examples: the empty hash, under which `Address.Hex` is
all lower case. -/
def exampleHash : List Char → List Byte := fun _ => []

/-- A block for the examples. -/
def exampleBlock : Block := ⟨10, some 99, 21000, 30000, 540⟩

/-- A `Stats` with two coinbase rewards set. -/
def rewardStats : Stats :=
  SetCoinbaseReward freshStats [⟨exampleAddress 3, some 5⟩, ⟨exampleAddress 4, some 1⟩]

/-! ## The same state at a later enumeration -/

/-- The same `Stats` met again: the transactions target, the failed flag, the size
and the coinbase reward list are equal and each bucket is the same map, which a
new `range` may enumerate in another order. -/
def Stats.sameContent (a b : Stats) : Prop :=
  a.create.sameContent b.create ∧ a.call.sameContent b.call ∧
  a.callCode.sameContent b.callCode ∧ a.delegateCall.sameContent b.delegateCall ∧
  a.staticCall.sameContent b.staticCall ∧
  a.preCompiledCode.sameContent b.preCompiledCode ∧
  a.opSelfdestruct.sameContent b.opSelfdestruct ∧
  a.failed = b.failed ∧ a.size = b.size ∧ a.coinbaseReward = b.coinbaseReward ∧
  a.LogTransactionsFile = b.LogTransactionsFile

/-- The `Stats` with the two tied call records after a first flush that met the
value 5 first, at a second enumeration that meets the value 7 first. -/
def tieStats75Flushed : Stats :=
  { tieStats75 with LogTransactionsFile := some "T 0 0 1\n1 2\n1 2 5 1\n1 2 7 1\n" }

/-! # Theorems -/

/-! ## Association lists -/

theorem assocGet_assocSet_self {K V : Type} [DecidableEq K] (k : K) (v : V)
    (l : List (K × V)) : assocGet k (assocSet k v l) = some v := by
  induction l with
  | nil => simp [assocSet, assocGet]
  | cons p rest ih =>
    obtain ⟨k1, v1⟩ := p
    by_cases h : k1 = k
    · simp [assocSet, assocGet, h]
    · simp [assocSet, assocGet, h, ih]

theorem assocGet_assocSet_ne {K V : Type} [DecidableEq K] {k k2 : K} (v : V)
    (l : List (K × V)) (hne : k2 ≠ k) : assocGet k2 (assocSet k v l) = assocGet k2 l := by
  induction l with
  | nil =>
    have : ¬ k = k2 := fun h => hne h.symm
    simp [assocSet, assocGet, this]
  | cons p rest ih =>
    obtain ⟨k1, v1⟩ := p
    by_cases h : k1 = k
    · have : ¬ k = k2 := fun h => hne h.symm
      subst h
      simp [assocSet, assocGet, this]
    · by_cases h2 : k1 = k2
      · subst h2
        simp [assocSet, assocGet, h]
      · simp [assocSet, assocGet, h, h2, ih]

theorem assocGet_eq_none_iff {K V : Type} [DecidableEq K] (k : K) (l : List (K × V)) :
    assocGet k l = none ↔ k ∉ l.map Prod.fst := by
  induction l with
  | nil => simp [assocGet]
  | cons p rest ih =>
    obtain ⟨k1, v1⟩ := p
    by_cases h : k1 = k
    · simp [assocGet, h]
    · have : ¬ k = k1 := fun e => h e.symm
      simp [assocGet, h, ih, this]

theorem assocSet_of_not_mem {K V : Type} [DecidableEq K] (k : K) (v : V)
    (l : List (K × V)) (h : k ∉ l.map Prod.fst) : assocSet k v l = l ++ [(k, v)] := by
  induction l with
  | nil => simp [assocSet]
  | cons p rest ih =>
    obtain ⟨k1, v1⟩ := p
    simp only [List.map_cons, List.mem_cons, not_or] at h
    have : ¬ k1 = k := fun e => h.1 e.symm
    simp [assocSet, this, ih h.2]

theorem GoMap.ext_entries {K V : Type} {m1 m2 : GoMap K V} (h : m1.entries = m2.entries) :
    m1 = m2 := by
  cases m1; cases m2; cases h; rfl

theorem GoMap.get?_set {K V : Type} [DecidableEq K] (m : GoMap K V) (k k2 : K) (v : V) :
    (m.set k v).get? k2 = if k2 = k then some v else m.get? k2 := by
  unfold GoMap.get? GoMap.set
  by_cases h : k2 = k
  · subst h
    simp [assocGet_assocSet_self]
  · simp [h, assocGet_assocSet_ne]

theorem GoMap.get?_empty {K V : Type} [DecidableEq K] (k : K) :
    (GoMap.empty : GoMap K V).get? k = none := rfl

/-! ## The hexadecimal codec -/

theorem fromHexChar_hexDigit (n : Nat) (h : n < 16) : fromHexChar (hexDigit n) = some n := by
  interval_cases n <;> decide

theorem utf8Size_hexDigit (n : Nat) (h : n < 16) : (hexDigit n).utf8Size = 1 := by
  interval_cases n <;> decide

theorem hexDigit_ne (n : Nat) (h : n < 16) :
    hexDigit n ≠ 'x' ∧ hexDigit n ≠ 'X' ∧ hexDigit n ≠ '\n' ∧ hexDigit n ≠ '\r' := by
  interval_cases n <;> decide

theorem Hex2Bytes_fmtHexBytes (bs : List Byte) : Hex2Bytes (fmtHexBytes bs) = bs := by
  induction bs with
  | nil => rfl
  | cons b rest ih =>
    have h1 : b.val / 16 < 16 := by omega
    have h2 : b.val % 16 < 16 := by omega
    simp only [fmtHexBytes, Hex2Bytes, fromHexChar_hexDigit _ h1, fromHexChar_hexDigit _ h2, ih]
    congr 1
    apply Fin.ext
    simp [Fin.ofNat]
    omega

theorem byteLen_fmtHexBytes (bs : List Byte) : byteLen (fmtHexBytes bs) = 2 * bs.length := by
  induction bs with
  | nil => rfl
  | cons b rest ih =>
    have h1 : b.val / 16 < 16 := by omega
    have h2 : b.val % 16 < 16 := by omega
    unfold byteLen at ih ⊢
    simp only [fmtHexBytes, List.map_cons, List.sum_cons, utf8Size_hexDigit _ h1,
      utf8Size_hexDigit _ h2, ih, List.length_cons]
    omega

theorem FromHex_fmtHexBytes (bs : List Byte) : FromHex (fmtHexBytes bs) = bs := by
  have hlen := byteLen_fmtHexBytes bs
  cases bs with
  | nil => rfl
  | cons b rest =>
    have h2 : b.val % 16 < 16 := by omega
    have hx := hexDigit_ne _ h2
    have hs : (match fmtHexBytes (b :: rest) with
        | '0' :: 'x' :: r => r
        | '0' :: 'X' :: r => r
        | _ => fmtHexBytes (b :: rest)) = fmtHexBytes (b :: rest) := by
      simp only [fmtHexBytes]
      split
      · rename_i heq
        simp only [List.cons.injEq] at heq
        exact absurd heq.2.1 hx.1
      · rename_i heq
        simp only [List.cons.injEq] at heq
        exact absurd heq.2.1 hx.2.1
      · rfl
    unfold FromHex
    simp only [hs]
    rw [hlen]
    have : ¬ (2 * (b :: rest).length % 2 = 1) := by omega
    simp only [this, if_false]
    exact Hex2Bytes_fmtHexBytes _

theorem BytesToAddress_bytes (a : Address) : BytesToAddress a.bytes = a := by
  obtain ⟨bs, hs⟩ := a
  simp [BytesToAddress, hs]

theorem HexToAddress_fmtHex (a : Address) : HexToAddress a.fmtHex = a := by
  unfold HexToAddress Address.fmtHex
  simp only [FromHex_fmtHexBytes, BytesToAddress_bytes]

theorem fmtHexBytes_chars (bs : List Byte) :
    ∀ c ∈ fmtHexBytes bs, c ≠ '\n' ∧ c ≠ '\r' := by
  induction bs with
  | nil =>
    intro c hc
    simp [fmtHexBytes] at hc
  | cons b rest ih =>
    intro c hc
    have h1 : b.val / 16 < 16 := by omega
    have h2 : b.val % 16 < 16 := by omega
    simp only [fmtHexBytes, List.mem_cons] at hc
    rcases hc with hc | hc | hc
    · rw [hc]
      exact ⟨(hexDigit_ne _ h1).2.2.1, (hexDigit_ne _ h1).2.2.2⟩
    · rw [hc]
      exact ⟨(hexDigit_ne _ h2).2.2.1, (hexDigit_ne _ h2).2.2.2⟩
    · exact ih c hc

theorem not_newline_mem_fmtHexBytes (bs : List Byte) : '\n' ∉ fmtHexBytes bs :=
  fun h => (fmtHexBytes_chars bs _ h).1 rfl

/-! ## The registry -/

theorem getID_known {s : Stats} {r : Registry} {a : Address} {v : Nat}
    (hs : s.enabled) (hv : r.idMapping.get? a = some v) : getID s r a = some (v, s, r) := by
  obtain ⟨hlog, hfile⟩ := hs
  unfold getID
  cases hf : s.idMappingsFile with
  | none => exact absurd hf hfile
  | some f => simp [hlog, hv]

theorem getID_fresh {s : Stats} {r : Registry} {a : Address} {f : String}
    (hlog : s.dontLog = false) (hf : s.idMappingsFile = some f)
    (hv : r.idMapping.get? a = none) :
    getID s r a = some (r.nextID,
      { s with idMappingsFile := some (f ++ a.fmtHex ++ "\n") },
      ⟨(r.nextID + 1) % 2 ^ 64, r.idMapping.set a r.nextID⟩) := by
  unfold getID
  simp [hlog, hf, hv]

theorem Registry.invariant_init : Registry.init.invariant := by
  constructor
  · intro a v h
    simp [Registry.init, GoMap.get?_empty] at h
  · intro a b v h
    simp [Registry.init, GoMap.get?_empty] at h

theorem Registry.invariant_assign {r : Registry} (h : r.invariant) (a : Address)
    (hb : r.nextID + 1 < 2 ^ 64) :
    (⟨(r.nextID + 1) % 2 ^ 64, r.idMapping.set a r.nextID⟩ : Registry).invariant := by
  obtain ⟨hlt, hinj⟩ := h
  rw [Nat.mod_eq_of_lt hb]
  constructor
  · intro b v hv
    simp only [GoMap.get?_set] at hv
    show v < r.nextID + 1
    split at hv
    · simp only [Option.some.injEq] at hv
      omega
    · have := hlt b v hv
      omega
  · intro b c v hb2 hc
    simp only [GoMap.get?_set] at hb2 hc
    split at hb2 <;> split at hc
    · simp_all
    · simp only [Option.some.injEq] at hb2
      have := hlt c v hc
      omega
    · simp only [Option.some.injEq] at hc
      have := hlt b v hb2
      omega
    · exact hinj b c v hb2 hc

theorem SetNextIdLoop_invariant (lines : List String) :
    ∀ r : Registry, r.invariant → r.nextID + lines.length < 2 ^ 64 →
      (SetNextIdLoop lines r).invariant ∧
      (SetNextIdLoop lines r).nextID = r.nextID + lines.length := by
  induction lines with
  | nil =>
    intro r h _
    exact ⟨h, rfl⟩
  | cons line rest ih =>
    intro r h hb
    simp only [List.length_cons] at hb
    have hb1 : r.nextID + 1 < 2 ^ 64 := by omega
    have h1 := Registry.invariant_assign h (HexToAddress line) hb1
    have hn : (⟨(r.nextID + 1) % 2 ^ 64, r.idMapping.set (HexToAddress line) r.nextID⟩ :
        Registry).nextID = r.nextID + 1 := Nat.mod_eq_of_lt hb1
    have := ih _ h1 (by rw [hn]; omega)
    simp only [SetNextIdLoop, List.length_cons]
    refine ⟨this.1, ?_⟩
    rw [this.2, hn]
    omega

theorem SetNextId_invariant (text : String) (hb : (scanLines text).length < 2 ^ 64) :
    (SetNextId text Registry.init).invariant ∧
    (SetNextId text Registry.init).nextID = (scanLines text).length := by
  have h0 : (⟨0, Registry.init.idMapping⟩ : Registry).invariant := Registry.invariant_init
  have := SetNextIdLoop_invariant (scanLines text) ⟨0, Registry.init.idMapping⟩ h0
    (by simpa using hb)
  unfold SetNextId
  refine ⟨this.1, ?_⟩
  rw [this.2]
  simp

theorem getIDs_spec (xs : List Address) :
    ∀ (s : Stats) (r : Registry), s.enabled → r.invariant →
      r.nextID + xs.length < 2 ^ 64 →
      ∃ ids s2 r2, getIDs xs s r = some (ids, s2, r2) ∧ s2.enabled ∧ r2.invariant ∧
        r2.nextID ≤ r.nextID + xs.length ∧
        (∀ a v, r.idMapping.get? a = some v → r2.idMapping.get? a = some v) ∧
        List.Forall₂ (fun a i => r2.idMapping.get? a = some i) xs ids := by
  induction xs with
  | nil =>
    intro s r hs hr _
    exact ⟨[], s, r, rfl, hs, hr, by simp, fun _ _ h => h, List.Forall₂.nil⟩
  | cons a rest ih =>
    intro s r hs hr hb
    simp only [List.length_cons] at hb
    cases hv : r.idMapping.get? a with
    | some v =>
      obtain ⟨ids, s2, r2, hrun, hs2, hr2, hn2, hmono, hall⟩ := ih s r hs hr (by omega)
      refine ⟨v :: ids, s2, r2, ?_, hs2, hr2, ?_, hmono, ?_⟩
      · simp only [getIDs, getID_known hs hv, hrun]
      · simp only [List.length_cons]
        omega
      · exact List.Forall₂.cons (hmono a v hv) hall
    | none =>
      obtain ⟨hlog, hfile⟩ := hs
      cases hf : s.idMappingsFile with
      | none => exact absurd hf hfile
      | some f =>
        have hb1 : r.nextID + 1 < 2 ^ 64 := by omega
        have hr1 := Registry.invariant_assign hr a hb1
        have hs1 : ({ s with idMappingsFile := some (f ++ a.fmtHex ++ "\n") } :
            Stats).enabled := ⟨hlog, by simp⟩
        have hn1 : (r.nextID + 1) % 2 ^ 64 = r.nextID + 1 := Nat.mod_eq_of_lt hb1
        obtain ⟨ids, s2, r2, hrun, hs2, hr2, hn2, hmono, hall⟩ :=
          ih _ _ hs1 hr1 (by simp only [hn1]; omega)
        refine ⟨r.nextID :: ids, s2, r2, ?_, hs2, hr2, ?_, ?_, ?_⟩
        · simp only [getIDs, getID_fresh hlog hf hv, hrun]
        · simp only [hn1] at hn2
          simp only [List.length_cons]
          omega
        · intro b v hbv
          apply hmono
          rw [GoMap.get?_set]
          split
          · rename_i hba
            rw [hba, hv] at hbv
            exact absurd hbv (by simp)
          · exact hbv
        · refine List.Forall₂.cons (hmono a r.nextID ?_) hall
          rw [GoMap.get?_set]
          simp

/-- C1. With logging enabled, on the registry that `SetNextId` leaves from the
empty one (the empty registry itself for an empty store), a run of lookups
returns one identifier for each lookup, and two lookups return the same
identifier exactly when they are of the same address: distinct addresses
get distinct identifiers, and an address gets the identifier of its first
lookup every time, whatever is looked up in between. -/
theorem getID_distinct_and_stable (text : String) (s : Stats) (xs : List Address)
    (hs : s.enabled) (hb : (scanLines text).length + xs.length < 2 ^ 64) :
    SetNextId "" Registry.init = Registry.init ∧
    ∃ ids s2 r2, getIDs xs s (SetNextId text Registry.init) = some (ids, s2, r2) ∧
      ids.length = xs.length ∧
      ∀ (i j : Nat) (a b : Address) (x y : Nat), xs[i]? = some a → xs[j]? = some b → ids[i]? = some x →
        ids[j]? = some y → (x = y ↔ a = b) := by
  refine ⟨rfl, ?_⟩
  obtain ⟨hinv, hn⟩ := SetNextId_invariant text (by omega)
  obtain ⟨ids, s2, r2, hrun, _, hr2, _, _, hall⟩ :=
    getIDs_spec xs s (SetNextId text Registry.init) hs hinv (by rw [hn]; exact hb)
  refine ⟨ids, s2, r2, hrun, hall.length_eq.symm, ?_⟩
  intro i j a b x y ha hb2 hx hy
  have key : ∀ (k : Nat) (c : Address) (z : Nat), xs[k]? = some c → ids[k]? = some z →
      r2.idMapping.get? c = some z := by
    intro k c z hc hz
    have hk : k < xs.length := by
      rcases Nat.lt_or_ge k xs.length with h | h
      · exact h
      · rw [List.getElem?_eq_none h] at hc
        exact absurd hc (by simp)
    have hk2 : k < ids.length := by rw [← hall.length_eq]; exact hk
    have := List.Forall₂.get hall hk hk2
    rw [List.getElem?_eq_getElem hk] at hc
    rw [List.getElem?_eq_getElem hk2] at hz
    simp only [Option.some.injEq] at hc hz
    simp only [List.get_eq_getElem] at this
    rw [← hc, ← hz]
    exact this
  have h1 := key i a x ha hx
  have h2 := key j b y hb2 hy
  constructor
  · intro hxy
    subst hxy
    exact hr2.2 a b x h1 h2
  · intro hab
    subst hab
    rw [h1] at h2
    exact Option.some.inj h2

/-- C4. With logging enabled, `getID` of an address that is not in the registry
returns the current `nextID`, records that value for the address and leaves every
other address as it was, steps `nextID` by one (the `uint64` increment, which is
`nextID + 1` below the top of the range), and appends to the mapping store one
line: the hex encoding of the address and a newline.  The rest of the `Stats`
is untouched. -/
theorem getID_unknown_address (s : Stats) (r : Registry) (a : Address) (f : String)
    (hlog : s.dontLog = false) (hf : s.idMappingsFile = some f)
    (hnew : r.idMapping.get? a = none) :
    ∃ s2 r2, getID s r a = some (r.nextID, s2, r2) ∧
      r2.idMapping.get? a = some r.nextID ∧
      (∀ b, b ≠ a → r2.idMapping.get? b = r.idMapping.get? b) ∧
      r2.nextID = (r.nextID + 1) % 2 ^ 64 ∧
      (r.nextID + 1 < 2 ^ 64 → r2.nextID = r.nextID + 1) ∧
      s2.idMappingsFile = some (f ++ a.fmtHex ++ "\n") ∧
      s2 = { s with idMappingsFile := s2.idMappingsFile } ∧
      a.fmtHex.length = 40 ∧ '\n' ∉ a.fmtHex.data := by
  refine ⟨_, _, getID_fresh hlog hf hnew, ?_, ?_, rfl, ?_, rfl, rfl, ?_, ?_⟩
  · simp [GoMap.get?_set]
  · intro b hb
    simp [GoMap.get?_set, hb]
  · intro hb
    exact Nat.mod_eq_of_lt hb
  · show (fmtHexBytes a.bytes).length = 40
    have : ∀ bs : List Byte, (fmtHexBytes bs).length = 2 * bs.length := by
      intro bs
      induction bs with
      | nil => rfl
      | cons b rest ih =>
        simp only [fmtHexBytes, List.length_cons, ih]
        omega
    rw [this, a.size]
  · show '\n' ∉ fmtHexBytes a.bytes
    exact not_newline_mem_fmtHexBytes a.bytes

/-- C5. With logging enabled, `getID` of an address that is in the registry
returns the recorded identifier and the same `Stats` and registry: the map,
`nextID` and the text of the mapping store are what they were. -/
theorem getID_known_address (s : Stats) (r : Registry) (a : Address) (v : Nat)
    (hs : s.enabled) (hv : r.idMapping.get? a = some v) :
    getID s r a = some (v, s, r) :=
  getID_known hs hv

theorem Registry.dense_assign {r : Registry} (h : r.dense) (a : Address)
    (hnew : r.idMapping.get? a = none) (hb : r.nextID + 1 < 2 ^ 64) :
    (⟨(r.nextID + 1) % 2 ^ 64, r.idMapping.set a r.nextID⟩ : Registry).dense := by
  intro i hi
  have hi2 : i < r.nextID + 1 := by
    have : (r.nextID + 1) % 2 ^ 64 = r.nextID + 1 := Nat.mod_eq_of_lt hb
    rw [← this]
    exact hi
  show ∃ b, (r.idMapping.set a r.nextID).get? b = some i
  rcases Nat.lt_or_ge i r.nextID with hlt | hge
  · obtain ⟨b, hbi⟩ := h i hlt
    refine ⟨b, ?_⟩
    rw [GoMap.get?_set]
    split
    · rename_i hba
      rw [hba, hnew] at hbi
      exact absurd hbi (by simp)
    · exact hbi
  · refine ⟨a, ?_⟩
    have : i = r.nextID := by omega
    rw [GoMap.get?_set, this]
    simp

theorem SetNextIdLoop_fresh (lines : List String) :
    ∀ r : Registry, r.invariant → r.dense →
      (∀ l ∈ lines, r.idMapping.get? (HexToAddress l) = none) →
      (lines.map HexToAddress).Nodup → r.nextID + lines.length < 2 ^ 64 →
      (SetNextIdLoop lines r).invariant ∧ (SetNextIdLoop lines r).dense ∧
      (SetNextIdLoop lines r).nextID = r.nextID + lines.length ∧
      (∀ a v, r.idMapping.get? a = some v →
        (SetNextIdLoop lines r).idMapping.get? a = some v) ∧
      (∀ (k : Nat) (l : String), lines[k]? = some l →
        (SetNextIdLoop lines r).idMapping.get? (HexToAddress l) = some (r.nextID + k)) ∧
      (∀ a, (SetNextIdLoop lines r).idMapping.get? a ≠ none →
        r.idMapping.get? a ≠ none ∨ a ∈ lines.map HexToAddress) := by
  induction lines with
  | nil =>
    intro r hi hd _ _ _
    refine ⟨hi, hd, rfl, fun _ _ h => h, ?_, fun a h => Or.inl h⟩
    intro k l hk
    simp at hk
  | cons line rest ih =>
    intro r hi hd hnew hnd hb
    simp only [List.length_cons] at hb
    simp only [List.map_cons, List.nodup_cons] at hnd
    have hb1 : r.nextID + 1 < 2 ^ 64 := by omega
    have hn1 : (r.nextID + 1) % 2 ^ 64 = r.nextID + 1 := Nat.mod_eq_of_lt hb1
    have hline : r.idMapping.get? (HexToAddress line) = none :=
      hnew line (List.mem_cons_self _ _)
    have hi1 := Registry.invariant_assign hi (HexToAddress line) hb1
    have hd1 := Registry.dense_assign hd (HexToAddress line) hline hb1
    have hnew1 : ∀ l ∈ rest, (⟨(r.nextID + 1) % 2 ^ 64,
        r.idMapping.set (HexToAddress line) r.nextID⟩ : Registry).idMapping.get?
          (HexToAddress l) = none := by
      intro l hl
      show (r.idMapping.set (HexToAddress line) r.nextID).get? (HexToAddress l) = none
      rw [GoMap.get?_set]
      split
      · rename_i heq
        exact absurd (List.mem_map.mpr ⟨l, hl, heq⟩) hnd.1
      · exact hnew l (List.mem_cons_of_mem _ hl)
    obtain ⟨h1, h2, h3, h4, h5, h6⟩ := ih _ hi1 hd1 hnew1 hnd.2 (by simp only [hn1]; omega)
    simp only [SetNextIdLoop, hn1]
    simp only [hn1] at h1 h2 h3 h4 h5 h6
    refine ⟨h1, h2, ?_, ?_, ?_, ?_⟩
    · rw [h3, List.length_cons]
      omega
    · intro a v hav
      apply h4
      show (r.idMapping.set (HexToAddress line) r.nextID).get? a = some v
      rw [GoMap.get?_set]
      split
      · rename_i heq
        rw [heq, hline] at hav
        exact absurd hav (by simp)
      · exact hav
    · intro k l hk
      cases k with
      | zero =>
        simp only [List.getElem?_cons_zero, Option.some.injEq] at hk
        subst hk
        apply h4
        show (r.idMapping.set (HexToAddress line) r.nextID).get? (HexToAddress line) = _
        rw [GoMap.get?_set]
        simp
      | succ k =>
        simp only [List.getElem?_cons_succ] at hk
        have := h5 k l hk
        rw [this]
        congr 1
        omega
    · intro a ha
      rcases h6 a ha with h | h
      · have h7 : (r.idMapping.set (HexToAddress line) r.nextID).get? a ≠ none := h
        rw [GoMap.get?_set] at h7
        split at h7
        · rename_i heq
          right
          simp [heq]
        · left
          exact h7
      · right
        exact List.mem_cons_of_mem _ h

theorem getIDs_dense (xs : List Address) :
    ∀ (s : Stats) (r : Registry) (seen : List Address), s.enabled → r.invariant → r.dense →
      (∀ a, a ∈ seen ↔ r.idMapping.get? a ≠ none) →
      r.nextID + xs.length < 2 ^ 64 →
      ∃ ids s2 r2, getIDs xs s r = some (ids, s2, r2) ∧ r2.invariant ∧ r2.dense ∧
        r2.nextID = r.nextID + countFresh seen xs ∧
        (∀ a v, r.idMapping.get? a = some v → r2.idMapping.get? a = some v) := by
  induction xs with
  | nil =>
    intro s r seen hs hr hd _ _
    exact ⟨[], s, r, rfl, hr, hd, rfl, fun _ _ h => h⟩
  | cons a rest ih =>
    intro s r seen hs hr hd hseen hb
    simp only [List.length_cons] at hb
    cases hv : r.idMapping.get? a with
    | some v =>
      obtain ⟨ids, s2, r2, hrun, hr2, hd2, hn2, hmono⟩ :=
        ih s r seen hs hr hd hseen (by omega)
      have hmem : a ∈ seen := (hseen a).mpr (by rw [hv]; simp)
      refine ⟨v :: ids, s2, r2, ?_, hr2, hd2, ?_, hmono⟩
      · simp only [getIDs, getID_known hs hv, hrun]
      · simp only [countFresh, hmem, if_true]
        exact hn2
    | none =>
      obtain ⟨hlog, hfile⟩ := hs
      cases hf : s.idMappingsFile with
      | none => exact absurd hf hfile
      | some f =>
        have hb1 : r.nextID + 1 < 2 ^ 64 := by omega
        have hn1 : (r.nextID + 1) % 2 ^ 64 = r.nextID + 1 := Nat.mod_eq_of_lt hb1
        have hr1 := Registry.invariant_assign hr a hb1
        have hd1 := Registry.dense_assign hd a hv hb1
        have hs1 : ({ s with idMappingsFile := some (f ++ a.fmtHex ++ "\n") } :
            Stats).enabled := ⟨hlog, by simp⟩
        have hnot : a ∉ seen := fun h => (hseen a).mp h hv
        have hseen1 : ∀ b, b ∈ a :: seen ↔ (⟨(r.nextID + 1) % 2 ^ 64,
            r.idMapping.set a r.nextID⟩ : Registry).idMapping.get? b ≠ none := by
          intro b
          show b ∈ a :: seen ↔ (r.idMapping.set a r.nextID).get? b ≠ none
          rw [GoMap.get?_set, List.mem_cons]
          by_cases hba : b = a
          · simp [hba]
          · simp only [hba, false_or, if_false]
            exact hseen b
        obtain ⟨ids, s2, r2, hrun, hr2, hd2, hn2, hmono⟩ :=
          ih _ _ (a :: seen) hs1 hr1 hd1 hseen1 (by simp only [hn1]; omega)
        refine ⟨r.nextID :: ids, s2, r2, ?_, hr2, hd2, ?_, ?_⟩
        · simp only [getIDs, getID_fresh hlog hf hv, hrun]
        · simp only [hn1] at hn2
          simp only [countFresh, hnot, if_false]
          omega
        · intro b v hbv
          apply hmono
          show (r.idMapping.set a r.nextID).get? b = some v
          rw [GoMap.get?_set]
          split
          · rename_i hba
            rw [hba, hv] at hbv
            exact absurd hbv (by simp)
          · exact hbv

/-- C2, the claim as stated fails: a mapping store of two lines that name the same
address leaves, after the replay and no lookup, the counter at 2 and the
identifier 0 held by no address. -/
theorem SetNextId_repeated_line_leaves_gap :
    (scanLines "00\n00\n").length = 2 ∧
    (SetNextId "00\n00\n" Registry.init).nextID = 2 ∧
    getIDs [] (NewStats (some "") (some "") (some "") (some ""))
      (SetNextId "00\n00\n" Registry.init) =
      some ([], NewStats (some "") (some "") (some "") (some ""),
        SetNextId "00\n00\n" Registry.init) ∧
    ¬ ∃ a, (SetNextId "00\n00\n" Registry.init).idMapping.get? a = some 0 := by
  refine ⟨by decide, by decide, rfl, ?_⟩
  rintro ⟨a, ha⟩
  have he : (SetNextId "00\n00\n" Registry.init).idMapping.entries =
      [(HexToAddress "00", 1)] := by decide
  unfold GoMap.get? at ha
  rw [he] at ha
  simp only [assocGet] at ha
  split at ha
  · simp at ha
  · simp at ha

/-- C2, amended. When the lines of the mapping store name pairwise distinct
addresses, the replay of its N lines into the empty registry followed by a run
of lookups with logging enabled, M of them of addresses not yet known, leaves
`nextID` at N + M, the identifiers held are exactly the numbers below N + M,
no identifier is held by two addresses, and the address of line k has the
identifier k after the replay and still after the lookups. -/
theorem bootstrap_then_lookups_dense (text : String) (s : Stats) (xs : List Address)
    (hs : s.enabled) (hd : ((scanLines text).map HexToAddress).Nodup)
    (hb : (scanLines text).length + xs.length < 2 ^ 64) :
    ∃ ids s2 r2, getIDs xs s (SetNextId text Registry.init) = some (ids, s2, r2) ∧
      r2.nextID = (scanLines text).length +
        countFresh ((scanLines text).map HexToAddress) xs ∧
      (∀ i, i < (scanLines text).length +
          countFresh ((scanLines text).map HexToAddress) xs ↔
        ∃ a, r2.idMapping.get? a = some i) ∧
      (∀ a b i, r2.idMapping.get? a = some i → r2.idMapping.get? b = some i → a = b) ∧
      (∀ (k : Nat) (line : String), (scanLines text)[k]? = some line →
        (SetNextId text Registry.init).idMapping.get? (HexToAddress line) = some k ∧
        r2.idMapping.get? (HexToAddress line) = some k) := by
  have h0i : (⟨0, Registry.init.idMapping⟩ : Registry).invariant := Registry.invariant_init
  have h0d : (⟨0, Registry.init.idMapping⟩ : Registry).dense := by
    intro i hi
    exact absurd hi (Nat.not_lt_zero i)
  obtain ⟨h1, h2, h3, _, h5, h6⟩ := SetNextIdLoop_fresh (scanLines text)
    ⟨0, Registry.init.idMapping⟩ h0i h0d (fun _ _ => rfl) hd (by simp only; omega)
  have hseen : ∀ a, a ∈ (scanLines text).map HexToAddress ↔
      (SetNextId text Registry.init).idMapping.get? a ≠ none := by
    intro a
    constructor
    · intro ha
      obtain ⟨l, hl, rfl⟩ := List.mem_map.mp ha
      obtain ⟨k, hk, hkl⟩ := List.getElem_of_mem hl
      have := h5 k l (by rw [List.getElem?_eq_getElem hk, hkl])
      unfold SetNextId
      rw [this]
      simp
    · intro ha
      rcases h6 a ha with h | h
      · exact absurd rfl h
      · exact h
  have hn : (SetNextId text Registry.init).nextID = (scanLines text).length := by
    unfold SetNextId
    rw [h3]
    simp
  obtain ⟨ids, s2, r2, hrun, hr2, hd2, hn2, hmono⟩ :=
    getIDs_dense xs s (SetNextId text Registry.init) _ hs h1 h2 hseen (by rw [hn]; exact hb)
  rw [hn] at hn2
  refine ⟨ids, s2, r2, hrun, hn2, ?_, hr2.2, ?_⟩
  · intro i
    rw [← hn2]
    constructor
    · exact hd2 i
    · rintro ⟨a, ha⟩
      exact hr2.1 a i ha
  · intro k line hk
    have := h5 k line hk
    simp only [Nat.zero_add] at this
    exact ⟨this, hmono _ _ this⟩

/-! ## The mapping store -/

theorem storeText_append (es : List (Address × Nat)) (p : Address × Nat) :
    storeText (es ++ [p]) = storeText es ++ (fmtHexBytes p.1.bytes ++ ['\n']) := by
  induction es with
  | nil => simp [storeText]
  | cons q rest ih => simp [storeText, ih]

theorem dropCR_of_not_mem (l : List Char) (h : '\r' ∉ l) : dropCR l = l := by
  unfold dropCR
  split
  · rename_i hl
    exact absurd (List.mem_of_getLast?_eq_some hl) h
  · rfl

theorem byteLen_cons (c : Char) (l : List Char) : byteLen (c :: l) = c.utf8Size + byteLen l := by
  simp [byteLen]

theorem scanLinesAux_line (line : List Char) :
    ∀ (cur rest : List Char), '\n' ∉ line →
      byteLen cur + byteLen line < MaxScanTokenSize →
      scanLinesAux cur (line ++ '\n' :: rest) =
        String.mk (dropCR (cur.reverse ++ line)) :: scanLinesAux [] rest := by
  induction line with
  | nil =>
    intro cur rest _ hb
    have : byteLen ([] : List Char) = 0 := rfl
    rw [this] at hb
    have hnot : ¬ MaxScanTokenSize ≤ byteLen cur := by omega
    simp [scanLinesAux, hnot]
  | cons c line ih =>
    intro cur rest hn hb
    simp only [List.mem_cons, not_or] at hn
    have hc : ¬ c = '\n' := fun h => hn.1 h.symm
    rw [byteLen_cons] at hb
    have := ih (c :: cur) rest hn.2 (by rw [byteLen_cons]; omega)
    have step : scanLinesAux cur (c :: (line ++ '\n' :: rest)) =
        scanLinesAux (c :: cur) (line ++ '\n' :: rest) := by
      rw [scanLinesAux]
      simp only [hc, if_false]
    rw [List.cons_append, step, this]
    simp

theorem scanLinesAux_storeText (es : List (Address × Nat)) :
    scanLinesAux [] (storeText es) = es.map (fun p => p.1.fmtHex) := by
  induction es with
  | nil => rfl
  | cons p rest ih =>
    have hb : byteLen ([] : List Char) + byteLen (fmtHexBytes p.1.bytes) < MaxScanTokenSize := by
      rw [byteLen_fmtHexBytes, p.1.size]
      decide
    have hcr : '\r' ∉ fmtHexBytes p.1.bytes := fun h => (fmtHexBytes_chars _ _ h).2 rfl
    simp only [storeText, List.map_cons]
    rw [scanLinesAux_line _ [] _ (not_newline_mem_fmtHexBytes _) hb, ih]
    simp only [List.reverse_nil, List.nil_append, dropCR_of_not_mem _ hcr]
    rfl

theorem GoMap.entries_set_of_get?_none {K V : Type} [DecidableEq K] (m : GoMap K V) (k : K)
    (v : V) (h : m.get? k = none) : (m.set k v).entries = m.entries ++ [(k, v)] :=
  assocSet_of_not_mem k v m.entries ((assocGet_eq_none_iff k m.entries).mp h)

theorem getIDs_store (xs : List Address) :
    ∀ (s : Stats) (r : Registry) (t : String), s.dontLog = false →
      s.idMappingsFile = some t → t.data = storeText r.idMapping.entries →
      r.idMapping.entries.map Prod.snd = List.range r.nextID →
      r.nextID + xs.length < 2 ^ 64 →
      ∃ ids s2 r2 t2, getIDs xs s r = some (ids, s2, r2) ∧ s2.idMappingsFile = some t2 ∧
        t2.data = storeText r2.idMapping.entries ∧
        r2.idMapping.entries.map Prod.snd = List.range r2.nextID := by
  induction xs with
  | nil =>
    intro s r t _ hf ht hr _
    exact ⟨[], s, r, t, rfl, hf, ht, hr⟩
  | cons a rest ih =>
    intro s r t hlog hf ht hr hb
    simp only [List.length_cons] at hb
    cases hv : r.idMapping.get? a with
    | some v =>
      obtain ⟨ids, s2, r2, t2, hrun, h1, h2, h3⟩ := ih s r t hlog hf ht hr (by omega)
      refine ⟨v :: ids, s2, r2, t2, ?_, h1, h2, h3⟩
      have hs : s.enabled := ⟨hlog, by rw [hf]; simp⟩
      simp only [getIDs, getID_known hs hv, hrun]
    | none =>
      have hb1 : r.nextID + 1 < 2 ^ 64 := by omega
      have hn1 : (r.nextID + 1) % 2 ^ 64 = r.nextID + 1 := Nat.mod_eq_of_lt hb1
      have he := GoMap.entries_set_of_get?_none r.idMapping a r.nextID hv
      obtain ⟨ids, s2, r2, t2, hrun, h1, h2, h3⟩ :=
        ih { s with idMappingsFile := some (t ++ a.fmtHex ++ "\n") }
          ⟨(r.nextID + 1) % 2 ^ 64, r.idMapping.set a r.nextID⟩ (t ++ a.fmtHex ++ "\n")
          hlog rfl
          (by
            show (t ++ a.fmtHex ++ "\n").data = storeText (r.idMapping.set a r.nextID).entries
            rw [he, storeText_append, String.data_append, String.data_append, ht]
            simp [Address.fmtHex])
          (by
            show (r.idMapping.set a r.nextID).entries.map Prod.snd =
              List.range ((r.nextID + 1) % 2 ^ 64)
            rw [he, hn1, List.range_succ, List.map_append, hr]
            rfl)
          (by simp only [hn1]; omega)
      refine ⟨r.nextID :: ids, s2, r2, t2, ?_, h1, h2, h3⟩
      simp only [getIDs, getID_fresh hlog hf hv, hrun]

theorem SetNextIdLoop_replay (suffix : List (Address × Nat)) :
    ∀ r : Registry, ((r.idMapping.entries ++ suffix).map Prod.fst).Nodup →
      suffix.map Prod.snd = List.range' r.nextID suffix.length →
      r.nextID + suffix.length < 2 ^ 64 →
      (SetNextIdLoop (suffix.map (fun p => p.1.fmtHex)) r).nextID =
        r.nextID + suffix.length ∧
      (SetNextIdLoop (suffix.map (fun p => p.1.fmtHex)) r).idMapping.entries =
        r.idMapping.entries ++ suffix := by
  induction suffix with
  | nil =>
    intro r _ _ _
    simp [SetNextIdLoop]
  | cons p rest ih =>
    intro r hnd hsnd hb
    obtain ⟨a, v⟩ := p
    simp only [List.length_cons] at hb
    simp only [List.map_cons, List.length_cons, List.range'_succ, List.cons.injEq] at hsnd
    have hb1 : r.nextID + 1 < 2 ^ 64 := by omega
    have hn1 : (r.nextID + 1) % 2 ^ 64 = r.nextID + 1 := Nat.mod_eq_of_lt hb1
    have ha : r.idMapping.get? a = none := by
      unfold GoMap.get?
      rw [assocGet_eq_none_iff]
      intro hmem
      rw [List.map_append, List.nodup_append] at hnd
      exact hnd.2.2 hmem (by simp)
    have he := GoMap.entries_set_of_get?_none r.idMapping a r.nextID ha
    have := ih ⟨(r.nextID + 1) % 2 ^ 64, r.idMapping.set a r.nextID⟩
      (by
        show (((r.idMapping.set a r.nextID).entries ++ rest).map Prod.fst).Nodup
        rw [he, ← hsnd.1]
        simpa using hnd)
      (by
        show rest.map Prod.snd = List.range' ((r.nextID + 1) % 2 ^ 64) rest.length
        rw [hn1]
        exact hsnd.2)
      (by simp only [hn1]; omega)
    simp only [List.map_cons, SetNextIdLoop, HexToAddress_fmtHex, List.length_cons]
    refine ⟨?_, ?_⟩
    · rw [this.1]
      simp only [hn1]
      omega
    · rw [this.2]
      show (r.idMapping.set a r.nextID).entries ++ rest = _
      rw [he, ← hsnd.1]
      simp

theorem assocGet_eq_some_iff_getElem? (es : List (Address × Nat)) :
    ∀ (n : Nat), (es.map Prod.fst).Nodup → es.map Prod.snd = List.range' n es.length →
      ∀ (a : Address) (i : Nat),
        assocGet a es = some (n + i) ↔ (es.map (fun p => p.1.fmtHex))[i]? = some a.fmtHex := by
  induction es with
  | nil =>
    intro n _ _ a i
    simp [assocGet]
  | cons p rest ih =>
    intro n hnd hsnd a i
    obtain ⟨b, v⟩ := p
    simp only [List.map_cons, List.length_cons, List.range'_succ, List.cons.injEq] at hsnd
    simp only [List.map_cons, List.nodup_cons] at hnd
    have hinj : ∀ x y : Address, x.fmtHex = y.fmtHex → x = y := by
      intro x y h
      rw [← HexToAddress_fmtHex x, ← HexToAddress_fmtHex y, h]
    have hrest := ih (n + 1) hnd.2 hsnd.2 a
    have hge : ∀ w, assocGet a rest = some w → n + 1 ≤ w := by
      intro w hw
      have hmem : ∀ (l : List (Address × Nat)), assocGet a l = some w →
          w ∈ l.map Prod.snd := by
        intro l
        induction l with
        | nil => simp [assocGet]
        | cons q l2 ih2 =>
          obtain ⟨c, u⟩ := q
          simp only [assocGet, List.map_cons, List.mem_cons]
          split
          · intro h
            left
            exact (Option.some.inj h).symm
          · intro h
            right
            exact ih2 h
      have := hmem rest hw
      rw [hsnd.2, List.mem_range'_1] at this
      exact this.1
    simp only [List.map_cons]
    cases i with
    | zero =>
      simp only [assocGet, Nat.add_zero, List.getElem?_cons_zero, Option.some.injEq]
      constructor
      · intro h
        split at h
        · rename_i hba
          rw [hba]
        · have := hge _ h
          omega
      · intro h
        have hba : b = a := hinj _ _ h
        simp [hba, hsnd.1]
    | succ i =>
      simp only [assocGet, List.getElem?_cons_succ]
      rw [← hrest i]
      have e : n + (i + 1) = n + 1 + i := by omega
      rw [e]
      constructor
      · intro h
        split at h
        · simp only [Option.some.injEq] at h
          omega
        · exact h
      · intro h
        split
        · rename_i hba
          have hmem : a ∈ rest.map Prod.fst := by
            by_contra hcon
            rw [(assocGet_eq_none_iff a rest).mpr hcon] at h
            exact absurd h (by simp)
          rw [← hba] at hmem
          exact absurd hmem hnd.1
        · exact h

/-- C3. From the empty registry and an empty mapping store, with logging enabled,
a run of lookups leaves a store that has one line for each identifier handed
out; line i (counted from 0) is the hex encoding of an address exactly when
that address has the identifier i; and `SetNextId` on that store, from the empty
registry, gives back the registry the lookups produced: the same map and the
same `nextID`. -/
theorem mapping_store_round_trip (s : Stats) (xs : List Address)
    (hlog : s.dontLog = false) (hf : s.idMappingsFile = some "")
    (hb : xs.length < 2 ^ 64) :
    ∃ ids s2 r2 store, getIDs xs s Registry.init = some (ids, s2, r2) ∧
      s2.idMappingsFile = some store ∧
      (scanLines store).length = r2.nextID ∧
      (∀ (i : Nat) (a : Address),
        (scanLines store)[i]? = some a.fmtHex ↔ r2.idMapping.get? a = some i) ∧
      SetNextId store Registry.init = r2 := by
  obtain ⟨ids, s2, r2, store, hrun, hs2, hdata, hsnd⟩ :=
    getIDs_store xs s Registry.init "" hlog hf rfl rfl (by simpa [Registry.init] using hb)
  have hlines : scanLines store = r2.idMapping.entries.map (fun p => p.1.fmtHex) := by
    unfold scanLines
    rw [hdata, scanLinesAux_storeText]
  have hlen : r2.idMapping.entries.length = r2.nextID := by
    have := congrArg List.length hsnd
    simpa using this
  have hrange : r2.idMapping.entries.map Prod.snd =
      List.range' 0 r2.idMapping.entries.length := by
    rw [hsnd, hlen, List.range_eq_range']
  refine ⟨ids, s2, r2, store, hrun, hs2, ?_, ?_, ?_⟩
  · rw [hlines, List.length_map, hlen]
  · intro i a
    rw [hlines]
    have := assocGet_eq_some_iff_getElem? r2.idMapping.entries 0 r2.idMapping.nodup hrange a i
    rw [Nat.zero_add] at this
    exact this.symm
  · have hbound : r2.nextID ≤ xs.length := by
      obtain ⟨ids2, s3, r3, hrun2, _, _, hn, _, _⟩ :=
        getIDs_spec xs s Registry.init ⟨hlog, by rw [hf]; simp⟩ Registry.invariant_init
          (by simpa [Registry.init] using hb)
      rw [hrun] at hrun2
      simp only [Option.some.injEq, Prod.mk.injEq] at hrun2
      rw [hrun2.2.2]
      simpa [Registry.init] using hn
    have := SetNextIdLoop_replay r2.idMapping.entries ⟨0, Registry.init.idMapping⟩
      (by simpa [Registry.init, GoMap.empty] using r2.idMapping.nodup)
      (by simpa using hrange)
      (by simp only [Nat.zero_add]; omega)
    unfold SetNextId
    rw [hlines]
    obtain ⟨h1, h2⟩ := this
    generalize SetNextIdLoop _ _ = q at h1 h2 ⊢
    obtain ⟨n2, m2⟩ := r2
    obtain ⟨qn, qm⟩ := q
    simp only [Nat.zero_add] at h1
    simp only [Registry.init, GoMap.empty, List.nil_append] at h2
    simp only at hlen
    congr 1
    · rw [h1, hlen]
    · exact GoMap.ext_entries h2

/-! ## The sort -/

theorem siftLeft_perm {α : Type} (less : α → α → Bool) (x : α) (l : List α) :
    (siftLeft less x l).Perm (x :: l) := by
  induction l with
  | nil => exact List.Perm.refl _
  | cons y rest ih =>
    unfold siftLeft
    split
    · exact (List.Perm.cons y ih).trans (List.Perm.swap x y rest)
    · exact List.Perm.refl _

theorem foldl_siftLeft_perm {α : Type} (less : α → α → Bool) (l : List α) :
    ∀ acc : List α, (l.foldl (fun sorted x => siftLeft less x sorted) acc).Perm (l ++ acc) := by
  induction l with
  | nil =>
    intro acc
    exact List.Perm.refl _
  | cons x rest ih =>
    intro acc
    simp only [List.foldl_cons, List.cons_append]
    refine (ih _).trans ?_
    refine (List.Perm.append_left rest (siftLeft_perm less x acc)).trans ?_
    exact List.perm_middle

theorem sortSort_perm {α : Type} (less : α → α → Bool) (l : List α) :
    (sortSort less l).Perm l := by
  unfold sortSort
  refine (List.reverse_perm _).trans ?_
  simpa using foldl_siftLeft_perm less l []

theorem siftLeft_pairwise {α : Type} (less : α → α → Bool)
    (hasymm : ∀ a b, less a b = true → less b a = false)
    (htrans : ∀ a b c, less a b = false → less b c = false → less a c = false)
    (x : α) (l : List α) (h : l.Pairwise (fun a b => less a b = false)) :
    (siftLeft less x l).Pairwise (fun a b => less a b = false) := by
  induction l with
  | nil => simp [siftLeft]
  | cons y rest ih =>
    rw [List.pairwise_cons] at h
    unfold siftLeft
    split
    · rename_i hxy
      rw [List.pairwise_cons]
      refine ⟨?_, ih h.2⟩
      intro z hz
      have hz2 := (siftLeft_perm less x rest).mem_iff.mp hz
      rcases List.mem_cons.mp hz2 with rfl | hz3
      · exact hasymm _ _ hxy
      · exact h.1 z hz3
    · rename_i hxy
      have hxy2 : less x y = false := by simpa using hxy
      rw [List.pairwise_cons]
      refine ⟨?_, List.pairwise_cons.mpr h⟩
      intro z hz
      rcases List.mem_cons.mp hz with rfl | hz3
      · exact hxy2
      · exact htrans _ _ _ hxy2 (h.1 z hz3)

theorem sortSort_pairwise {α : Type} (less : α → α → Bool)
    (hasymm : ∀ a b, less a b = true → less b a = false)
    (htrans : ∀ a b c, less a b = false → less b c = false → less a c = false)
    (l : List α) : (sortSort less l).Pairwise (fun a b => less b a = false) := by
  have : ∀ (l acc : List α), acc.Pairwise (fun a b => less a b = false) →
      (l.foldl (fun sorted x => siftLeft less x sorted) acc).Pairwise
        (fun a b => less a b = false) := by
    intro l
    induction l with
    | nil =>
      intro acc h
      exact h
    | cons x rest ih =>
      intro acc h
      exact ih _ (siftLeft_pairwise less hasymm htrans x acc h)
  unfold sortSort
  rw [List.pairwise_reverse]
  exact this l [] List.Pairwise.nil

theorem Less_eq_true_iff (x y : logStruct) :
    Less x y = true ↔ x.from_ < y.from_ ∨ (x.from_ = y.from_ ∧ x.to_ < y.to_) := by
  unfold Less
  by_cases h1 : x.from_ = y.from_
  · by_cases h2 : x.to_ = y.to_
    · simp [h1, h2]
    · simp [h1, h2]
  · simp only [h1, if_false, decide_eq_true_eq]
    constructor
    · intro h
      exact Or.inl h
    · rintro (h | ⟨h, _⟩)
      · exact h
      · exact h.elim

theorem Less_eq_false_iff (x y : logStruct) : Less x y = false ↔ keyLE y x := by
  have := Less_eq_true_iff x y
  unfold keyLE
  cases h : Less x y
  · simp only [true_iff]
    rw [h] at this
    simp only [false_iff, Bool.false_eq_true] at this
    omega
  · simp only [false_iff, Bool.true_eq_false]
    rw [h] at this
    simp only [true_iff] at this
    omega

theorem sortSort_Less_sorted (l : List logStruct) : (sortSort Less l).Pairwise keyLE := by
  have h := sortSort_pairwise Less
    (by
      intro a b hab
      rw [Less_eq_true_iff] at hab
      rw [Less_eq_false_iff]
      unfold keyLE
      omega)
    (by
      intro a b c hab hbc
      rw [Less_eq_false_iff] at hab hbc ⊢
      unfold keyLE at *
      omega)
    l
  refine List.Pairwise.imp ?_ h
  intro a b hab
  exact (Less_eq_false_iff b a).mp hab

/-! ## Pieces of text -/

theorem joinLines_append (l1 l2 : List String) :
    joinLines (l1 ++ l2) = joinLines l1 ++ joinLines l2 := by
  induction l1 with
  | nil => simp [joinLines]
  | cons x rest ih => simp [joinLines, ih, String.append_assoc]

theorem foldl_append_eq_joinLines {α : Type} (f : α → String) (l : List α) :
    ∀ init : String, l.foldl (fun out x => out ++ f x) init = init ++ joinLines (l.map f) := by
  induction l with
  | nil =>
    intro init
    simp [joinLines]
  | cons x rest ih =>
    intro init
    simp only [List.foldl_cons, List.map_cons, joinLines, ih, String.append_assoc]

theorem writeCallText_eq (logEntry : Bucket) (logType : methodType) :
    writeCallText logEntry logType =
      (toString logType ++ " " ++ toString logEntry.len ++ "\n") ++
        joinLines ((sortSort Less logEntry.keys).map (recordLine logEntry logType)) := by
  unfold writeCallText
  exact foldl_append_eq_joinLines _ _ _

/-! ## The serializer -/

theorem writeCall_mk (c1 c2 c3 c4 c5 c6 c7 : Bucket) (fl : Bool) (sz : StorageSize)
    (cb : List CoinbaseReward) (lb : Option String) (t : String) (lc im : Option String)
    (dl : Bool) (b : Bucket) (k : methodType) :
    writeCall ⟨c1, c2, c3, c4, c5, c6, c7, fl, sz, cb, lb, some t, lc, im, dl⟩ b k =
      some ⟨c1, c2, c3, c4, c5, c6, c7, fl, sz, cb, lb,
        some (t ++ (if b.len ≠ 0 then writeCallText b k else "")), lc, im, dl⟩ := by
  unfold writeCall
  by_cases h : b.len = 0
  · simp [h]
  · simp [h]

theorem joinLines_filter_map {α : Type} (p : α → Bool) (f : α → String) (l : List α) :
    joinLines ((l.filter p).map f) = joinLines (l.map (fun k => if p k then f k else "")) := by
  induction l with
  | nil => rfl
  | cons x rest ih =>
    by_cases h : p x = true
    · simp [List.filter_cons, h, joinLines, ih]
    · simp [List.filter_cons, h, joinLines, ih]

theorem WriteCalls_eq (s : Stats) (t : String) (ht : s.LogTransactionsFile = some t) :
    WriteCalls s = some { s with LogTransactionsFile := some (t ++ headerLine s ++
      joinLines ((nonEmptyKinds s).map (fun k => writeCallText (s.bucket k) k))) } := by
  obtain ⟨c1, c2, c3, c4, c5, c6, c7, fl, sz, cb, lb, lt, lc, im, dl⟩ := s
  simp only at ht
  subst ht
  unfold nonEmptyKinds
  rw [joinLines_filter_map]
  simp only [WriteCalls, writeCall_mk, Option.bind_eq_bind, Option.some_bind, allKinds,
    List.map_cons, List.map_nil, joinLines, Stats.bucket, createType, callType, callcodeType,
    delegateCallType, staticCallType, preCompiledType, opSelfdestructType,
    String.append_assoc, String.append_empty, decide_eq_true_eq]

theorem nonEmptyCalls_eq (s : Stats) : nonEmptyCalls s = (nonEmptyKinds s).length := by
  unfold nonEmptyCalls nonEmptyKinds allKinds
  simp only [List.filter_cons, List.filter_nil, Stats.bucket, createType, callType,
    callcodeType, delegateCallType, staticCallType, preCompiledType, opSelfdestructType,
    decide_eq_true_eq, Nat.pos_iff_ne_zero]
  by_cases h1 : s.create.len = 0 <;> by_cases h2 : s.call.len = 0 <;>
  by_cases h3 : s.callCode.len = 0 <;> by_cases h4 : s.delegateCall.len = 0 <;>
  by_cases h5 : s.staticCall.len = 0 <;> by_cases h6 : s.preCompiledCode.len = 0 <;>
  by_cases h7 : s.opSelfdestruct.len = 0 <;>
  simp [h1, h2, h3, h4, h5, h6, h7]

/-! ## The Log operations -/

theorem getID_resolved {s : Stats} {r : Registry} {a : Address} {i : Nat}
    (h : resolved s r a i) : getID s r a = some (i, s, r) := by
  rcases h with ⟨hd, hi⟩ | ⟨he, hv⟩
  · unfold getID
    simp [hd, hi]
  · exact getID_known he hv

theorem getID_canLog (s : Stats) (r : Registry) (a : Address) (hs : s.canLog) :
    ∃ i s2 r2, getID s r a = some (i, s2, r2) ∧
      s2 = { s with idMappingsFile := s2.idMappingsFile } ∧ s2.canLog ∧
      resolved s2 r2 a i ∧ (∀ b j, resolved s r b j → resolved s2 r2 b j) := by
  rcases Bool.eq_false_or_eq_true s.dontLog with hd | hd
  · refine ⟨0, s, r, ?_, rfl, hs, Or.inl ⟨hd, rfl⟩, fun _ _ h => h⟩
    unfold getID
    simp [hd]
  · have hfile : s.idMappingsFile ≠ none := by
      rcases hs with h | h
      · rw [hd] at h
        exact absurd h (by simp)
      · exact h
    have he : s.enabled := ⟨hd, hfile⟩
    cases hv : r.idMapping.get? a with
    | some v =>
      exact ⟨v, s, r, getID_known he hv, rfl, hs, Or.inr ⟨he, hv⟩, fun _ _ h => h⟩
    | none =>
      cases hf : s.idMappingsFile with
      | none => exact absurd hf hfile
      | some f =>
        have he2 : ({ s with idMappingsFile := some (f ++ a.fmtHex ++ "\n") } :
            Stats).enabled := ⟨hd, by simp⟩
        refine ⟨_, _, _, getID_fresh hd hf hv, rfl, Or.inr (by simp), Or.inr ⟨he2, ?_⟩, ?_⟩
        · show (r.idMapping.set a r.nextID).get? a = some r.nextID
          rw [GoMap.get?_set]
          simp
        · intro b j hb
          rcases hb with ⟨hd2, _⟩ | ⟨_, hbv⟩
          · rw [hd] at hd2
            exact absurd hd2 (by simp)
          · refine Or.inr ⟨he2, ?_⟩
            show (r.idMapping.set a r.nextID).get? b = some j
            rw [GoMap.get?_set]
            split
            · rename_i hba
              rw [hba, hv] at hbv
              exact absurd hbv (by simp)
            · exact hbv

theorem logOp_eq {kind : methodType} (hk : kind ∈ allKinds) {s s1 s2 : Stats}
    {r r1 r2 : Registry} {a b : Address} {f t : Nat} (v : BigInt) (c : Option Nat)
    (h1 : getID s r a = some (f, s1, r1)) (h2 : getID s1 r1 b = some (t, s2, r2)) :
    logOp kind s r a b v c =
      some (s2.withBucket kind (incr (s2.bucket kind) (recordOf kind f t v c)), r2) := by
  simp only [allKinds, createType, callType, callcodeType, delegateCallType, staticCallType,
    preCompiledType, opSelfdestructType, List.mem_cons, List.mem_singleton, List.mem_nil_iff,
    or_false] at hk
  rcases hk with rfl | rfl | rfl | rfl | rfl | rfl | rfl <;>
  simp [logOp, LogCreate, LogCall, LogCallCode, LogDelegateCall, LogStaticCall,
    LogPreCompiledCode, LogOpSelfdestruct, h1, h2, Stats.withBucket, Stats.bucket, recordOf]

theorem bucket_withBucket_self {kind : methodType} (hk : kind ∈ allKinds) (s : Stats)
    (b : Bucket) : (s.withBucket kind b).bucket kind = b := by
  simp only [allKinds, createType, callType, callcodeType, delegateCallType, staticCallType,
    preCompiledType, opSelfdestructType, List.mem_cons, List.mem_singleton, List.mem_nil_iff,
    or_false] at hk
  rcases hk with rfl | rfl | rfl | rfl | rfl | rfl | rfl <;> rfl

theorem bucket_withBucket_ne {kind kind2 : methodType} (hne : kind2 ≠ kind) (s : Stats)
    (b : Bucket) : (s.withBucket kind b).bucket kind2 = s.bucket kind2 := by
  unfold Stats.withBucket
  split <;> (unfold Stats.bucket; split <;> first | rfl | (exfalso; exact hne rfl))

theorem withBucket_fields (s : Stats) (kind : methodType) (b : Bucket) :
    (s.withBucket kind b).failed = s.failed ∧ (s.withBucket kind b).size = s.size ∧
    (s.withBucket kind b).coinbaseReward = s.coinbaseReward ∧
    (s.withBucket kind b).LogTransactionsFile = s.LogTransactionsFile ∧
    (s.withBucket kind b).idMappingsFile = s.idMappingsFile ∧
    (s.withBucket kind b).dontLog = s.dontLog := by
  unfold Stats.withBucket
  split <;> exact ⟨rfl, rfl, rfl, rfl, rfl, rfl⟩

theorem resolved_withBucket {s : Stats} {r : Registry} {a : Address} {i : Nat}
    (kind : methodType) (b : Bucket) (h : resolved s r a i) :
    resolved (s.withBucket kind b) r a i := by
  have hf := withBucket_fields s kind b
  unfold resolved Stats.enabled at *
  rw [hf.2.2.2.2.1, hf.2.2.2.2.2]
  exact h

theorem get?_incr (m : Bucket) (key k2 : logStruct) :
    (incr m key).get? k2 =
      if k2 = key then some ((m.getD key 0 + 1) % 2 ^ 32) else m.get? k2 := by
  unfold incr
  exact GoMap.get?_set _ _ _ _

theorem bucket_idMappingsFile (s : Stats) (x : Option String) (k : methodType) :
    ({ s with idMappingsFile := x } : Stats).bucket k = s.bucket k := by
  unfold Stats.bucket
  split <;> rfl

theorem resolve_pair (s : Stats) (r : Registry) (a b : Address) (hs : s.canLog) :
    ∃ f t s1 r1 s2 r2, getID s r a = some (f, s1, r1) ∧ getID s1 r1 b = some (t, s2, r2) ∧
      (∃ x, s2 = { s with idMappingsFile := x }) ∧
      resolved s2 r2 a f ∧ resolved s2 r2 b t := by
  obtain ⟨f, s1, r1, h1, e1, c1, ra, _⟩ := getID_canLog s r a hs
  obtain ⟨t, s2, r2, h2, e2, _, rb, keep⟩ := getID_canLog s1 r1 b c1
  refine ⟨f, t, s1, r1, s2, r2, h1, h2, ⟨s2.idMappingsFile, ?_⟩, keep a f ra, rb⟩
  rw [e2, e1]

theorem entries_incr_nil (m : Bucket) (key : logStruct) (h : m.entries = []) :
    (incr m key).entries = [(key, 1)] := by
  simp [incr, GoMap.set, GoMap.getD, GoMap.get?, h, assocSet, assocGet]

theorem entries_incr_single (m : Bucket) (key : logStruct) (cnt : Nat)
    (h : m.entries = [(key, cnt)]) :
    (incr m key).entries = [(key, (cnt + 1) % 2 ^ 32)] := by
  simp [incr, GoMap.set, GoMap.getD, GoMap.get?, h, assocSet, assocGet]

theorem logOpTimes_resolved {kind : methodType} (hk : kind ∈ allKinds) (a b : Address)
    (v : BigInt) (c : Option Nat) (f t : Nat) (n : Nat) :
    ∀ (s : Stats) (r : Registry) (cnt : Nat), resolved s r a f → resolved s r b t →
      (s.bucket kind).entries = [(recordOf kind f t v c, cnt)] → cnt < 2 ^ 32 →
      ∃ s2, logOpTimes kind a b v c n s r = some (s2, r) ∧
        (s2.bucket kind).entries = [(recordOf kind f t v c, (cnt + n) % 2 ^ 32)] ∧
        s2.LogTransactionsFile = s.LogTransactionsFile := by
  induction n with
  | zero =>
    intro s r cnt _ _ he hc
    refine ⟨s, rfl, ?_, rfl⟩
    rw [he, Nat.add_zero, Nat.mod_eq_of_lt hc]
  | succ n ih =>
    intro s r cnt ha hb he hc
    have hop := logOp_eq hk v c (getID_resolved ha) (getID_resolved hb)
    have he1 := entries_incr_single (s.bucket kind) _ cnt he
    obtain ⟨s2, hrun, hent, hfile⟩ :=
      ih (s.withBucket kind (incr (s.bucket kind) (recordOf kind f t v c))) r
        ((cnt + 1) % 2 ^ 32) (resolved_withBucket _ _ ha) (resolved_withBucket _ _ hb)
        (by rw [bucket_withBucket_self hk]; exact he1)
        (Nat.mod_lt _ (by decide))
    refine ⟨s2, ?_, ?_, ?_⟩
    · simp only [logOpTimes, hop, hrun]
    · rw [hent]
      congr 2
      omega
    · rw [hfile]
      exact (withBucket_fields _ _ _).2.2.2.1

theorem writeCallText_single (m : Bucket) (kind : methodType) (key : logStruct) (cnt : Nat)
    (h : m.entries = [(key, cnt)]) :
    writeCallText m kind = (toString kind ++ " " ++ toString 1 ++ "\n") ++
      ((toString key.from_ ++ " " ++ toString key.to_)
        ++ (if hasValue kind then " " ++ key.value else "")
        ++ (" " ++ toString cnt ++ "\n")) := by
  simp [writeCallText, GoMap.keys, GoMap.len, h, sortSort, siftLeft, recordLine, GoMap.getD,
    GoMap.get?, assocGet]

theorem recordOf_fields (kind : methodType) (f t : Nat) (v : BigInt) (c : Option Nat) :
    (recordOf kind f t v c).from_ = f ∧ (recordOf kind f t v c).to_ = t ∧
    (hasValue kind = true → (recordOf kind f t v c).value = v.String) := by
  unfold recordOf
  split <;> simp_all [hasValue, createType, callType, callcodeType, opSelfdestructType]

/-- C6. For each of the seven kinds, the Log operation of that kind called K ≥ 1
times with the same arguments, on a `Stats` whose bucket of that kind is empty,
leaves that bucket with one record whose count is K modulo 2^32; for it
`writeCall` writes the sub-header with the record count 1 and one record line
that ends with that count, and `WriteCalls` writes this text as the part of
that kind. -/
theorem repeated_record_single_line (kind : methodType) (hk : kind ∈ allKinds)
    (s : Stats) (r : Registry) (a b : Address) (v : BigInt) (c : Option Nat) (K : Nat)
    (tx : String) (hK : 1 ≤ K) (hs : s.canLog) (hempty : (s.bucket kind).len = 0)
    (htx : s.LogTransactionsFile = some tx) :
    ∃ f t s1 r1 s2 r2 s3 r3, getID s r a = some (f, s1, r1) ∧
      getID s1 r1 b = some (t, s2, r2) ∧
      logOpTimes kind a b v c K s r = some (s3, r3) ∧
      (s3.bucket kind).entries = [(recordOf kind f t v c, K % 2 ^ 32)] ∧
      writeCallText (s3.bucket kind) kind = (toString kind ++ " " ++ toString 1 ++ "\n") ++
        ((toString f ++ " " ++ toString t)
          ++ (if hasValue kind then " " ++ v.String else "")
          ++ (" " ++ toString (K % 2 ^ 32) ++ "\n")) ∧
      kind ∈ nonEmptyKinds s3 ∧
      WriteCalls s3 = some { s3 with LogTransactionsFile := some (tx ++ headerLine s3 ++
        joinLines ((nonEmptyKinds s3).map (fun k => writeCallText (s3.bucket k) k))) } := by
  obtain ⟨n, rfl⟩ : ∃ n, K = n + 1 := ⟨K - 1, by omega⟩
  obtain ⟨f, t, s1, r1, s2, r2, h1, h2, ⟨x, hx⟩, ra, rb⟩ := resolve_pair s r a b hs
  have hop := logOp_eq hk v c h1 h2
  have hb2 : (s2.bucket kind).entries = [] := by
    rw [hx, bucket_idMappingsFile]
    exact List.eq_nil_of_length_eq_zero hempty
  obtain ⟨s3, hrun, hent, hfile⟩ :=
    logOpTimes_resolved hk a b v c f t n
      (s2.withBucket kind (incr (s2.bucket kind) (recordOf kind f t v c))) r2 1
      (resolved_withBucket _ _ ra) (resolved_withBucket _ _ rb)
      (by rw [bucket_withBucket_self hk]; exact entries_incr_nil _ _ hb2)
      (by decide)
  have hcount : (1 + n) % 2 ^ 32 = (n + 1) % 2 ^ 32 := by rw [Nat.add_comm]
  rw [hcount] at hent
  have htx3 : s3.LogTransactionsFile = some tx := by
    rw [hfile, (withBucket_fields _ _ _).2.2.2.1, hx]
    exact htx
  have hfields := recordOf_fields kind f t v c
  refine ⟨f, t, s1, r1, s2, r2, s3, r2, h1, h2, ?_, hent, ?_, ?_, WriteCalls_eq s3 tx htx3⟩
  · simp only [logOpTimes, hop, hrun]
  · rw [writeCallText_single _ _ _ _ hent, hfields.1, hfields.2.1]
    by_cases hv : hasValue kind = true
    · simp only [hv, if_true, hfields.2.2 hv]
    · simp [hv]
  · unfold nonEmptyKinds
    rw [List.mem_filter]
    refine ⟨hk, ?_⟩
    simp [GoMap.len, hent]

/-- C7. Each of the seven Log operations, on a `Stats` on which it does not panic,
returns a `Stats` in which one key of the bucket of its own kind has its count
stepped by one (the `uint32` increment, from 0 for a new key) and every other
key of that bucket is as before; the other six buckets, the failed flag, the
size and the coinbase reward list are unchanged, so that a record never lands
in the bucket of another kind. -/
theorem logOp_changes_own_bucket_only (kind : methodType) (hk : kind ∈ allKinds)
    (s : Stats) (r : Registry) (a b : Address) (v : BigInt) (c : Option Nat)
    (hs : s.canLog) :
    (logOp createType s r a b v c = LogCreate s r a b v c ∧
      logOp callType s r a b v c = LogCall s r a b v ∧
      logOp callcodeType s r a b v c = LogCallCode s r a b v ∧
      logOp delegateCallType s r a b v c = LogDelegateCall s r a b ∧
      logOp staticCallType s r a b v c = LogStaticCall s r a b ∧
      logOp preCompiledType s r a b v c = LogPreCompiledCode s r a b ∧
      logOp opSelfdestructType s r a b v c = LogOpSelfdestruct s r a b v) ∧
    ∃ s2 r2 key, logOp kind s r a b v c = some (s2, r2) ∧
      (s2.bucket kind).get? key = some (((s.bucket kind).getD key 0 + 1) % 2 ^ 32) ∧
      (∀ k2, k2 ≠ key → (s2.bucket kind).get? k2 = (s.bucket kind).get? k2) ∧
      (∀ kind2, kind2 ≠ kind → s2.bucket kind2 = s.bucket kind2) ∧
      s2.failed = s.failed ∧ s2.size = s.size ∧ s2.coinbaseReward = s.coinbaseReward := by
  refine ⟨⟨rfl, rfl, rfl, rfl, rfl, rfl, rfl⟩, ?_⟩
  obtain ⟨f, t, s1, r1, s2, r2, h1, h2, ⟨x, hx⟩, _, _⟩ := resolve_pair s r a b hs
  have hop := logOp_eq hk v c h1 h2
  have hfields := withBucket_fields s2 kind (incr (s2.bucket kind) (recordOf kind f t v c))
  have hb : ∀ k, s2.bucket k = s.bucket k := by
    intro k
    rw [hx, bucket_idMappingsFile]
  refine ⟨_, r2, recordOf kind f t v c, hop, ?_, ?_, ?_, ?_, ?_, ?_⟩
  · rw [bucket_withBucket_self hk, get?_incr, hb]
    simp
  · intro k2 hk2
    rw [bucket_withBucket_self hk, get?_incr, hb]
    simp [hk2]
  · intro kind2 hne
    rw [bucket_withBucket_ne hne, hb]
  · rw [hfields.1, hx]
  · rw [hfields.2.1, hx]
  · rw [hfields.2.2.1, hx]

theorem headerLine_eq (s : Stats) :
    headerLine s = "T " ++ (if s.failed then "1" else "0") ++ " " ++ toString s.size ++ " "
      ++ toString (nonEmptyKinds s).length ++ "\n" := by
  unfold headerLine
  rw [nonEmptyCalls_eq]
  cases s.failed <;> rfl

/-- C8. For every `Stats` with a transactions target, `WriteCalls` appends to it the
header line `T f s n`, with f the failed flag as 0 or 1 and n the number of
non-empty buckets, and then, for the non-empty buckets only and in the order of
the kind codes 0 to 6, the sub-header `<kind code> <r>` followed by r record
lines, r being the number of keys (distinct records) of the bucket.  The text
depends on the buckets alone, not on the order of the Log calls. -/
theorem WriteCalls_layout (s : Stats) (tx : String) (htx : s.LogTransactionsFile = some tx) :
    allKinds = [0, 1, 2, 3, 4, 5, 6] ∧
    nonEmptyKinds s = allKinds.filter (fun k => decide ((s.bucket k).len ≠ 0)) ∧
    nonEmptyCalls s = (nonEmptyKinds s).length ∧
    (∀ k, ((sortSort Less (s.bucket k).keys).map (recordLine (s.bucket k) k)).length =
        (s.bucket k).len ∧
      (s.bucket k).len = (s.bucket k).keys.length ∧ (s.bucket k).keys.Nodup) ∧
    WriteCalls s = some { s with LogTransactionsFile := some (tx ++
      ("T " ++ (if s.failed then "1" else "0") ++ " " ++ toString s.size ++ " "
        ++ toString (nonEmptyKinds s).length ++ "\n") ++
      joinLines ((nonEmptyKinds s).map (fun k =>
        (toString k ++ " " ++ toString (s.bucket k).len ++ "\n") ++
          joinLines ((sortSort Less (s.bucket k).keys).map (recordLine (s.bucket k) k))))) } := by
  refine ⟨rfl, rfl, nonEmptyCalls_eq s, ?_, ?_⟩
  · intro k
    refine ⟨?_, ?_, (s.bucket k).nodup⟩
    · rw [List.length_map, (sortSort_perm Less _).length_eq]
      simp [GoMap.keys, GoMap.len]
    · simp [GoMap.keys, GoMap.len]
  · rw [WriteCalls_eq s tx htx, headerLine_eq]
    simp only [writeCallText_eq]

/-- C9. For every bucket and kind, `writeCall` on a `Stats` with a transactions target
appends nothing for an empty bucket and otherwise the sub-header and the
record lines of the sorted key slice; that slice is a permutation of the keys
of the bucket (its distinct records, each once) and is in ascending order of
`fromID` and, on equal `fromID`, of `toID`: the pair of a line is at most the
pair of every later line, the next one included. -/
theorem writeCall_lines_sorted (stats : Stats) (logEntry : Bucket) (logType : methodType)
    (tx : String) (htx : stats.LogTransactionsFile = some tx) :
    writeCall stats logEntry logType = some { stats with LogTransactionsFile := some (tx ++
      (if logEntry.len ≠ 0 then
        (toString logType ++ " " ++ toString logEntry.len ++ "\n") ++
          joinLines ((sortSort Less logEntry.keys).map (recordLine logEntry logType))
      else "")) } ∧
    (sortSort Less logEntry.keys).Perm logEntry.keys ∧
    logEntry.keys.Nodup ∧
    (sortSort Less logEntry.keys).Pairwise keyLE ∧
    (sortSort Less logEntry.keys).Chain' keyLE := by
  refine ⟨?_, sortSort_perm Less _, logEntry.nodup, sortSort_Less_sorted _,
    List.Pairwise.chain' (sortSort_Less_sorted _)⟩
  obtain ⟨c1, c2, c3, c4, c5, c6, c7, fl, sz, cb, lb, lt, lc, im, dl⟩ := stats
  simp only at htx
  subst htx
  rw [writeCall_mk, writeCallText_eq]

theorem hasValue_eq_true_iff (k : methodType) :
    hasValue k = true ↔ k = 0 ∨ k = 1 ∨ k = 2 ∨ k = 6 := by
  simp only [hasValue, createType, callType, callcodeType, opSelfdestructType]
  constructor
  · intro h
    split at h
    · rename_i h2
      rcases h2 with h2 | h2 | h2 | h2
      · exact Or.inr (Or.inl h2)
      · exact Or.inl h2
      · exact Or.inr (Or.inr (Or.inl h2))
      · exact Or.inr (Or.inr (Or.inr h2))
    · exact absurd h (by simp)
  · intro h
    rcases h with h | h | h | h <;> simp [h]

theorem hasValue_eq_false_iff (k : methodType) :
    k ∈ allKinds ∧ hasValue k = false ↔ k = 3 ∨ k = 4 ∨ k = 5 := by
  simp only [allKinds, createType, callType, callcodeType, delegateCallType, staticCallType,
    preCompiledType, opSelfdestructType, List.mem_cons, List.mem_singleton,
    List.mem_nil_iff, or_false]
  constructor
  · rintro ⟨hk, hf⟩
    rcases hk with h | h | h | h | h | h | h
    · rw [(hasValue_eq_true_iff k).mpr (Or.inl h)] at hf
      exact absurd hf (by simp)
    · rw [(hasValue_eq_true_iff k).mpr (Or.inr (Or.inl h))] at hf
      exact absurd hf (by simp)
    · rw [(hasValue_eq_true_iff k).mpr (Or.inr (Or.inr (Or.inl h)))] at hf
      exact absurd hf (by simp)
    · exact Or.inl h
    · exact Or.inr (Or.inl h)
    · exact Or.inr (Or.inr h)
    · rw [(hasValue_eq_true_iff k).mpr (Or.inr (Or.inr (Or.inr h)))] at hf
      exact absurd hf (by simp)
  · intro h
    rcases h with h | h | h <;> subst h <;> decide

theorem recordLine_forms_ne (a b v c : String) :
    a ++ " " ++ b ++ " " ++ v ++ " " ++ c ++ "\n" ≠ a ++ " " ++ b ++ " " ++ c ++ "\n" := by
  intro h
  have := congrArg String.length h
  simp only [String.length_append] at this
  have h1 : (" " : String).length = 1 := rfl
  omega

/-- C10. `hasValue` is true exactly for the kind codes 0, 1, 2 and 6 (create, call,
callCode, selfdestruct).  A record line is `fromID toID value count` exactly
when `hasValue` is true of the kind and `fromID toID count` exactly when it is
false, and among the seven kinds it is false exactly for 3, 4 and 5
(delegateCall, staticCall, precompiled). -/
theorem hasValue_kinds (k : methodType) (logEntry : Bucket) (call : logStruct) :
    (createType = 0 ∧ callType = 1 ∧ callcodeType = 2 ∧ delegateCallType = 3 ∧
      staticCallType = 4 ∧ preCompiledType = 5 ∧ opSelfdestructType = 6) ∧
    (hasValue k = true ↔ k = 0 ∨ k = 1 ∨ k = 2 ∨ k = 6) ∧
    (k ∈ allKinds ∧ hasValue k = false ↔ k = 3 ∨ k = 4 ∨ k = 5) ∧
    (recordLine logEntry k call =
        toString call.from_ ++ " " ++ toString call.to_ ++ " " ++ call.value ++ " " ++
          toString (logEntry.getD call 0) ++ "\n" ↔ hasValue k = true) ∧
    (recordLine logEntry k call =
        toString call.from_ ++ " " ++ toString call.to_ ++ " " ++
          toString (logEntry.getD call 0) ++ "\n" ↔ hasValue k = false) := by
  have hne := recordLine_forms_ne (toString call.from_) (toString call.to_) call.value
    (toString (logEntry.getD call 0))
  have h4 : hasValue k = true → recordLine logEntry k call =
      toString call.from_ ++ " " ++ toString call.to_ ++ " " ++ call.value ++ " " ++
        toString (logEntry.getD call 0) ++ "\n" := by
    intro hh
    simp only [recordLine, hh, if_true, String.append_assoc]
  have h3 : hasValue k = false → recordLine logEntry k call =
      toString call.from_ ++ " " ++ toString call.to_ ++ " " ++
        toString (logEntry.getD call 0) ++ "\n" := by
    intro hh
    simp only [recordLine, hh, String.append_assoc, String.append_empty, String.empty_append,
      Bool.false_eq_true, if_false]
  refine ⟨⟨rfl, rfl, rfl, rfl, rfl, rfl, rfl⟩, hasValue_eq_true_iff k,
    hasValue_eq_false_iff k, ⟨?_, h4⟩, ⟨?_, h3⟩⟩
  · intro h
    cases hh : hasValue k
    · rw [h3 hh] at h
      exact absurd h.symm hne
    · rfl
  · intro h
    cases hh : hasValue k
    · rfl
    · rw [h4 hh] at h
      exact absurd h hne

/-! ## The theorems at concrete inputs -/

/-- The run of lookups 2, 1, 2 on the registry replayed from the one-line store `01`. -/
theorem getID_distinct_and_stable_witness :
    freshStats.enabled ∧
    (scanLines "01\n").length +
      [exampleAddress 2, exampleAddress 1, exampleAddress 2].length < 2 ^ 64 ∧
    (SetNextId "" Registry.init = Registry.init ∧
      ∃ ids s2 r2, getIDs [exampleAddress 2, exampleAddress 1, exampleAddress 2] freshStats
          (SetNextId "01\n" Registry.init) = some (ids, s2, r2) ∧
        ids.length = [exampleAddress 2, exampleAddress 1, exampleAddress 2].length ∧
        ∀ (i j : Nat) (a b : Address) (x y : Nat),
          [exampleAddress 2, exampleAddress 1, exampleAddress 2][i]? = some a →
          [exampleAddress 2, exampleAddress 1, exampleAddress 2][j]? = some b →
          ids[i]? = some x → ids[j]? = some y → (x = y ↔ a = b)) :=
  ⟨by decide, by decide,
    getID_distinct_and_stable "01\n" freshStats
      [exampleAddress 2, exampleAddress 1, exampleAddress 2] (by decide) (by decide)⟩

/-- The store of the two lines `01` and `02`, then the lookups 2, 3, 3. -/
theorem bootstrap_then_lookups_dense_witness :
    freshStats.enabled ∧
    ((scanLines "01\n02\n").map HexToAddress).Nodup ∧
    (scanLines "01\n02\n").length +
      [exampleAddress 2, exampleAddress 3, exampleAddress 3].length < 2 ^ 64 ∧
    ∃ ids s2 r2, getIDs [exampleAddress 2, exampleAddress 3, exampleAddress 3] freshStats
        (SetNextId "01\n02\n" Registry.init) = some (ids, s2, r2) ∧
      r2.nextID = (scanLines "01\n02\n").length +
        countFresh ((scanLines "01\n02\n").map HexToAddress)
          [exampleAddress 2, exampleAddress 3, exampleAddress 3] ∧
      (∀ i, i < (scanLines "01\n02\n").length +
          countFresh ((scanLines "01\n02\n").map HexToAddress)
            [exampleAddress 2, exampleAddress 3, exampleAddress 3] ↔
        ∃ a, r2.idMapping.get? a = some i) ∧
      (∀ a b i, r2.idMapping.get? a = some i → r2.idMapping.get? b = some i → a = b) ∧
      (∀ (k : Nat) (line : String), (scanLines "01\n02\n")[k]? = some line →
        (SetNextId "01\n02\n" Registry.init).idMapping.get? (HexToAddress line) = some k ∧
        r2.idMapping.get? (HexToAddress line) = some k) :=
  ⟨by decide, by decide, by decide,
    bootstrap_then_lookups_dense "01\n02\n" freshStats
      [exampleAddress 2, exampleAddress 3, exampleAddress 3] (by decide) (by decide)
      (by decide)⟩

/-- The lookups 2, 1, 2 from the empty registry and the empty store. -/
theorem mapping_store_round_trip_witness :
    freshStats.dontLog = false ∧ freshStats.idMappingsFile = some "" ∧
    [exampleAddress 2, exampleAddress 1, exampleAddress 2].length < 2 ^ 64 ∧
    ∃ ids s2 r2 store,
      getIDs [exampleAddress 2, exampleAddress 1, exampleAddress 2] freshStats Registry.init =
        some (ids, s2, r2) ∧
      s2.idMappingsFile = some store ∧
      (scanLines store).length = r2.nextID ∧
      (∀ (i : Nat) (a : Address),
        (scanLines store)[i]? = some a.fmtHex ↔ r2.idMapping.get? a = some i) ∧
      SetNextId store Registry.init = r2 :=
  ⟨rfl, rfl, by decide,
    mapping_store_round_trip freshStats [exampleAddress 2, exampleAddress 1, exampleAddress 2]
      rfl rfl (by decide)⟩

/-- The first lookup of the address 7 on the registry replayed from the store `01`. -/
theorem getID_unknown_address_witness :
    freshStats.dontLog = false ∧ freshStats.idMappingsFile = some "" ∧
    (SetNextId "01\n" Registry.init).idMapping.get? (exampleAddress 7) = none ∧
    ∃ s2 r2, getID freshStats (SetNextId "01\n" Registry.init) (exampleAddress 7) =
        some ((SetNextId "01\n" Registry.init).nextID, s2, r2) ∧
      r2.idMapping.get? (exampleAddress 7) = some (SetNextId "01\n" Registry.init).nextID ∧
      (∀ b, b ≠ exampleAddress 7 →
        r2.idMapping.get? b = (SetNextId "01\n" Registry.init).idMapping.get? b) ∧
      r2.nextID = ((SetNextId "01\n" Registry.init).nextID + 1) % 2 ^ 64 ∧
      ((SetNextId "01\n" Registry.init).nextID + 1 < 2 ^ 64 →
        r2.nextID = (SetNextId "01\n" Registry.init).nextID + 1) ∧
      s2.idMappingsFile = some ("" ++ (exampleAddress 7).fmtHex ++ "\n") ∧
      s2 = { freshStats with idMappingsFile := s2.idMappingsFile } ∧
      (exampleAddress 7).fmtHex.length = 40 ∧ '\n' ∉ (exampleAddress 7).fmtHex.data :=
  ⟨rfl, rfl, by decide,
    getID_unknown_address freshStats (SetNextId "01\n" Registry.init) (exampleAddress 7) ""
      rfl rfl (by decide)⟩

/-- The lookup of the address 1 on the registry replayed from the store `01`. -/
theorem getID_known_address_witness :
    freshStats.enabled ∧
    (SetNextId "01\n" Registry.init).idMapping.get? (exampleAddress 1) = some 0 ∧
    getID freshStats (SetNextId "01\n" Registry.init) (exampleAddress 1) =
      some (0, freshStats, SetNextId "01\n" Registry.init) :=
  ⟨by decide, by decide,
    getID_known_address freshStats (SetNextId "01\n" Registry.init) (exampleAddress 1) 0
      (by decide) (by decide)⟩

/-- Three calls of `LogCall` from the address 1 to the address 2 with the value 5. -/
theorem repeated_record_single_line_witness :
    callType ∈ allKinds ∧ 1 ≤ 3 ∧ freshStats.canLog ∧
    (freshStats.bucket callType).len = 0 ∧ freshStats.LogTransactionsFile = some "" ∧
    ∃ f t s1 r1 s2 r2 s3 r3,
      getID freshStats Registry.init (exampleAddress 1) = some (f, s1, r1) ∧
      getID s1 r1 (exampleAddress 2) = some (t, s2, r2) ∧
      logOpTimes callType (exampleAddress 1) (exampleAddress 2) (some 5) none 3 freshStats
        Registry.init = some (s3, r3) ∧
      (s3.bucket callType).entries = [(recordOf callType f t (some 5) none, 3 % 2 ^ 32)] ∧
      writeCallText (s3.bucket callType) callType =
        (toString callType ++ " " ++ toString 1 ++ "\n") ++
          ((toString f ++ " " ++ toString t)
            ++ (if hasValue callType then " " ++ BigInt.String (some 5) else "")
            ++ (" " ++ toString (3 % 2 ^ 32) ++ "\n")) ∧
      callType ∈ nonEmptyKinds s3 ∧
      WriteCalls s3 = some { s3 with LogTransactionsFile := some ("" ++ headerLine s3 ++
        joinLines ((nonEmptyKinds s3).map (fun k => writeCallText (s3.bucket k) k))) } :=
  ⟨by decide, by decide, by decide, by decide, rfl,
    repeated_record_single_line callType (by decide) freshStats Registry.init
      (exampleAddress 1) (exampleAddress 2) (some 5) none 3 "" (by decide) (by decide)
      (by decide) rfl⟩

/-- One call of `LogCreate` on the example `Stats`. -/
theorem logOp_changes_own_bucket_only_witness :
    createType ∈ allKinds ∧ exampleStats.canLog ∧
    ∃ s2 r2 key,
      logOp createType exampleStats Registry.init (exampleAddress 1) (exampleAddress 2)
        (some 5) (some 0) = some (s2, r2) ∧
      (s2.bucket createType).get? key =
        some (((exampleStats.bucket createType).getD key 0 + 1) % 2 ^ 32) ∧
      (∀ k2, k2 ≠ key →
        (s2.bucket createType).get? k2 = (exampleStats.bucket createType).get? k2) ∧
      (∀ kind2, kind2 ≠ createType → s2.bucket kind2 = exampleStats.bucket kind2) ∧
      s2.failed = exampleStats.failed ∧ s2.size = exampleStats.size ∧
      s2.coinbaseReward = exampleStats.coinbaseReward :=
  ⟨by decide, by decide,
    (logOp_changes_own_bucket_only createType (by decide) exampleStats Registry.init
      (exampleAddress 1) (exampleAddress 2) (some 5) (some 0) (by decide)).2⟩

/-- The example of two creation records and one call record: the header `T 0 7 2`,
the sub-header `0 2` and two lines, the sub-header `1 1` and one line. -/
theorem WriteCalls_layout_witness :
    exampleStats.LogTransactionsFile = some "" ∧
    ∃ s2, WriteCalls exampleStats = some s2 ∧
      s2.LogTransactionsFile = some "T 0 7 2\n0 2\n1 2 5 1\n3 1 9 2\n1 1\n4 4 0 1\n" :=
  ⟨rfl, _, (WriteCalls_layout exampleStats "" rfl).2.2.2.2, by decide⟩

/-- The creation bucket of the example `Stats`, whose keys are held out of order. -/
theorem writeCall_lines_sorted_witness :
    exampleStats.LogTransactionsFile = some "" ∧
    exampleStats.create.keys = [⟨3, 1, "9", none⟩, ⟨1, 2, "5", none⟩] ∧
    sortSort Less exampleStats.create.keys = [⟨1, 2, "5", none⟩, ⟨3, 1, "9", none⟩] ∧
    (writeCall exampleStats exampleStats.create createType =
      some { exampleStats with LogTransactionsFile := some ("" ++
        (if exampleStats.create.len ≠ 0 then
          (toString createType ++ " " ++ toString exampleStats.create.len ++ "\n") ++
            joinLines ((sortSort Less exampleStats.create.keys).map
              (recordLine exampleStats.create createType))
        else "")) } ∧
      (sortSort Less exampleStats.create.keys).Perm exampleStats.create.keys ∧
      exampleStats.create.keys.Nodup ∧
      (sortSort Less exampleStats.create.keys).Pairwise keyLE ∧
      (sortSort Less exampleStats.create.keys).Chain' keyLE) :=
  ⟨rfl, by decide, by decide,
    writeCall_lines_sorted exampleStats exampleStats.create createType "" rfl⟩

/-! ## The flush and the disabled mode -/

/-- C11, the claim as stated fails: after `WriteCalls` on the example `Stats` the
creation bucket still holds its two records and the size is still 7, and a
second `WriteCalls` right after it writes the header `T 0 7 2` and all three
records again instead of `T 0 0 0`. -/
theorem WriteCalls_does_not_reset :
    (WriteCalls exampleStats).map
      (fun s => (s.create.len, s.call.len, s.failed, s.size, s.LogTransactionsFile)) =
      some (2, 1, false, 7, some "T 0 7 2\n0 2\n1 2 5 1\n3 1 9 2\n1 1\n4 4 0 1\n") ∧
    ((WriteCalls exampleStats).bind WriteCalls).map (fun s => s.LogTransactionsFile) =
      some (some ("T 0 7 2\n0 2\n1 2 5 1\n3 1 9 2\n1 1\n4 4 0 1\n" ++
        "T 0 7 2\n0 2\n1 2 5 1\n3 1 9 2\n1 1\n4 4 0 1\n")) := by
  constructor <;> decide

theorem GoMap.keys_perm_of_sameContent {K V : Type} [DecidableEq K] {m1 m2 : GoMap K V}
    (h : m1.sameContent m2) : m1.keys.Perm m2.keys := by
  unfold GoMap.keys
  rw [List.perm_ext_iff_of_nodup m1.nodup m2.nodup]
  intro a
  have e1 := assocGet_eq_none_iff a m1.entries
  have e2 := assocGet_eq_none_iff a m2.entries
  have := h a
  unfold GoMap.get? at this
  constructor
  · intro ha
    by_contra hn
    rw [← e2, ← this, e1] at hn
    exact hn ha
  · intro ha
    by_contra hn
    rw [← e1, this, e2] at hn
    exact hn ha

theorem GoMap.len_eq_of_sameContent {K V : Type} [DecidableEq K] {m1 m2 : GoMap K V}
    (h : m1.sameContent m2) : m1.len = m2.len := by
  have := (GoMap.keys_perm_of_sameContent h).length_eq
  simpa [GoMap.keys, GoMap.len] using this

theorem sortSort_perm_of_perm {α : Type} (less : α → α → Bool) {l1 l2 : List α}
    (h : l1.Perm l2) : (sortSort less l1).Perm (sortSort less l2) :=
  (sortSort_perm less l1).trans (h.trans (sortSort_perm less l2).symm)

theorem bucket_sameContent {a b : Stats} (h : a.sameContent b) (k : methodType) :
    (a.bucket k).sameContent (b.bucket k) := by
  obtain ⟨h0, h1, h2, h3, h4, h5, h6, _⟩ := h
  unfold Stats.bucket
  split
  · exact h0
  · exact h1
  · exact h2
  · exact h3
  · exact h4
  · exact h5
  · exact h6
  · intro _
    rfl

theorem recordLine_of_sameContent {m1 m2 : Bucket} (h : m1.sameContent m2) (k : methodType)
    (call : logStruct) : recordLine m1 k call = recordLine m2 k call := by
  unfold recordLine GoMap.getD
  rw [h call]

theorem WriteCalls_text_of_sameContent {a b : Stats}
    (hb : ∀ k, (a.bucket k).sameContent (b.bucket k)) (hf : a.failed = b.failed)
    (hsz : a.size = b.size) :
    headerLine a ++ joinLines ((nonEmptyKinds a).map (fun k => writeCallText (a.bucket k) k)) =
      headerLine b ++ joinLines ((nonEmptyKinds b).map (fun k =>
        (toString k ++ " " ++ toString (b.bucket k).len ++ "\n") ++
          joinLines ((sortSort Less (a.bucket k).keys).map (recordLine (b.bucket k) k)))) := by
  have hlen : ∀ k, (a.bucket k).len = (b.bucket k).len := fun k =>
    GoMap.len_eq_of_sameContent (hb k)
  have hkinds : nonEmptyKinds a = nonEmptyKinds b := by
    unfold nonEmptyKinds
    simp only [hlen]
  have hhead : headerLine a = headerLine b := by
    rw [headerLine_eq, headerLine_eq, hkinds, hf, hsz]
  rw [hhead, hkinds]
  congr 2
  apply List.map_congr_left
  intro k _
  rw [writeCallText_eq, hlen]
  congr 2
  apply List.map_congr_left
  intro call _
  exact recordLine_of_sameContent (hb k) k call

/-- C11, amended. `WriteCalls` resets nothing: on a `Stats` with a transactions
target it returns the same `Stats` with the written text appended to that
target, so the seven buckets, the failed flag, the size and the coinbase
reward list are as before.  A second `WriteCalls` with no Log operation in
between, on that state as the maps then enumerate it (the same content, in
whatever order), appends the same header once more and, under the same
sub-headers, the record lines of the same records: the sorted key slice of
each bucket is a permutation of the one of the first flush, so that only
records tied on (from, to) can change places. -/
theorem WriteCalls_keeps_state (s : Stats) (tx : String)
    (htx : s.LogTransactionsFile = some tx) :
    ∃ out s2, WriteCalls s = some s2 ∧
      s2 = { s with LogTransactionsFile := some (tx ++ out) } ∧
      (∀ k, s2.bucket k = s.bucket k) ∧ s2.failed = s.failed ∧ s2.size = s.size ∧
      s2.coinbaseReward = s.coinbaseReward ∧
      out = headerLine s ++ joinLines ((nonEmptyKinds s).map (fun k =>
        (toString k ++ " " ++ toString (s.bucket k).len ++ "\n") ++
          joinLines ((sortSort Less (s.bucket k).keys).map (recordLine (s.bucket k) k)))) ∧
      ∀ s3 : Stats, s3.sameContent s2 →
        (∀ k, (sortSort Less (s3.bucket k).keys).Perm (sortSort Less (s.bucket k).keys)) ∧
        WriteCalls s3 = some { s3 with LogTransactionsFile := some (tx ++ out ++
          (headerLine s ++ joinLines ((nonEmptyKinds s).map (fun k =>
            (toString k ++ " " ++ toString (s.bucket k).len ++ "\n") ++
              joinLines ((sortSort Less (s3.bucket k).keys).map
                (recordLine (s.bucket k) k)))))) } := by
  have hbucket : ∀ (x : Option String) (k : methodType),
      ({ s with LogTransactionsFile := x } : Stats).bucket k = s.bucket k := by
    intro x k
    unfold Stats.bucket
    split <;> rfl
  have hout := WriteCalls_text_of_sameContent (a := s) (b := s) (fun _ _ => rfl) rfl rfl
  refine ⟨_, { s with LogTransactionsFile := some (tx ++ (headerLine s ++
      joinLines ((nonEmptyKinds s).map (fun k =>
        (toString k ++ " " ++ toString (s.bucket k).len ++ "\n") ++
          joinLines ((sortSort Less (s.bucket k).keys).map (recordLine (s.bucket k) k)))))) },
    ?_, rfl, hbucket _, rfl, rfl, rfl, rfl, ?_⟩
  · rw [WriteCalls_eq s tx htx, String.append_assoc, hout]
  · intro s3 h3
    have h3b : ∀ k, (s3.bucket k).sameContent (s.bucket k) := by
      intro k
      have := bucket_sameContent h3 k
      rw [hbucket] at this
      exact this
    constructor
    · intro k
      exact sortSort_perm_of_perm Less (GoMap.keys_perm_of_sameContent (h3b k))
    · have hfile : s3.LogTransactionsFile = some (tx ++ (headerLine s ++
          joinLines ((nonEmptyKinds s).map (fun k =>
            (toString k ++ " " ++ toString (s.bucket k).len ++ "\n") ++
              joinLines ((sortSort Less (s.bucket k).keys).map
                (recordLine (s.bucket k) k)))))) := h3.2.2.2.2.2.2.2.2.2.2
      rw [WriteCalls_eq s3 _ hfile, String.append_assoc,
        WriteCalls_text_of_sameContent h3b h3.2.2.2.2.2.2.2.1 h3.2.2.2.2.2.2.2.2.1]

/-- C13. For every `Stats` that `NewStats` builds with at least one of the four
targets absent, `getID` returns 0 for every address, without a panic, and
returns the `Stats` (the mapping store in it) and the registry (the map and
`nextID`) as they were. -/
theorem getID_disabled (lb lt lc im : Option String) (r : Registry) (a : Address)
    (h : lb = none ∨ lt = none ∨ lc = none ∨ im = none) :
    (NewStats lb lt lc im).dontLog = true ∧
    getID (NewStats lb lt lc im) r a = some (0, NewStats lb lt lc im, r) := by
  have hd : (NewStats lb lt lc im).dontLog = true := by
    simp [NewStats, h]
  refine ⟨hd, ?_⟩
  unfold getID
  simp [hd]

/-! ## Ties in the sort, and record identity -/

/-- C12, the code at the failing input: a call bucket with the two records
(1, 2, value 5) and (1, 2, value 7), each counted once.  The two `Stats` hold the
same map (every key has the same count in both) and differ in the order in
which the map enumerates its keys; `WriteCalls` writes the two lines in that
order, so the two texts differ.  The same two buckets come from logging the
two calls in the one and in the other order. -/
theorem WriteCalls_ties_follow_enumeration :
    (∀ k, tieStats57.call.get? k = tieStats75.call.get? k) ∧
    tieStats57.call.keys.Perm tieStats75.call.keys ∧
    Less tieRecord5 tieRecord7 = false ∧ Less tieRecord7 tieRecord5 = false ∧
    (WriteCalls tieStats57).map (fun s => s.LogTransactionsFile) =
      some (some "T 0 0 1\n1 2\n1 2 5 1\n1 2 7 1\n") ∧
    (WriteCalls tieStats75).map (fun s => s.LogTransactionsFile) =
      some (some "T 0 0 1\n1 2\n1 2 7 1\n1 2 5 1\n") ∧
    (((LogCall freshStats Registry.init (exampleAddress 1) (exampleAddress 2) (some 5)).bind
        (fun p => LogCall p.1 p.2 (exampleAddress 1) (exampleAddress 2) (some 7))).bind
        (fun p => WriteCalls p.1)).map (fun s => s.LogTransactionsFile) =
      some (some "T 0 0 1\n1 2\n0 1 5 1\n0 1 7 1\n") ∧
    (((LogCall freshStats Registry.init (exampleAddress 1) (exampleAddress 2) (some 7)).bind
        (fun p => LogCall p.1 p.2 (exampleAddress 1) (exampleAddress 2) (some 5))).bind
        (fun p => WriteCalls p.1)).map (fun s => s.LogTransactionsFile) =
      some (some "T 0 0 1\n1 2\n0 1 7 1\n0 1 5 1\n") := by
  refine ⟨?_, by decide, by decide, by decide, by decide, by decide, by decide, by decide⟩
  intro k
  simp only [tieStats57, tieStats75, GoMap.get?_set, GoMap.get?_empty]
  by_cases h5 : k = tieRecord5
  · subst h5
    decide
  · by_cases h7 : k = tieRecord7
    · subst h7
      decide
    · simp [h5, h7]

/-- C18. `Less` is true exactly when the pair (from, to) of the first record is
lexicographically below that of the second.  On equal (from, to) it is false
in both directions whatever the values are, so the value breaks no tie.  It
is a strict weak ordering: irreflexive, transitive, and being incomparable
(neither below the other) is transitive. -/
theorem Less_strict_weak_order (x y z : logStruct) :
    (Less x y = true ↔ x.from_ < y.from_ ∨ (x.from_ = y.from_ ∧ x.to_ < y.to_)) ∧
    (x.from_ = y.from_ ∧ x.to_ = y.to_ → Less x y = false ∧ Less y x = false) ∧
    Less x x = false ∧
    (Less x y = true ∧ Less y z = true → Less x z = true) ∧
    ((Less x y = false ∧ Less y x = false) ∧ (Less y z = false ∧ Less z y = false) →
      Less x z = false ∧ Less z x = false) := by
  refine ⟨Less_eq_true_iff x y, ?_, ?_, ?_, ?_⟩
  · rintro ⟨h1, h2⟩
    simp only [Less_eq_false_iff, keyLE]
    omega
  · rw [Less_eq_false_iff]
    exact Or.inr ⟨rfl, Nat.le_refl _⟩
  · simp only [Less_eq_true_iff]
    omega
  · simp only [Less_eq_false_iff, keyLE]
    omega

theorem entries_incr_other (m : Bucket) (k1 k2 : logStruct) (cnt : Nat)
    (h : m.entries = [(k1, cnt)]) (hne : k1 ≠ k2) :
    (incr m k2).entries = [(k1, cnt), (k2, 1)] := by
  simp [incr, GoMap.set, GoMap.getD, GoMap.get?, h, assocSet, assocGet, hne]

/-- C19, the claim as stated fails: two `LogCreate` calls with the same from, to
and value and two code pointers (0 and 1) to equal byte slices (both empty
here) leave two keys of count 1 in the creation bucket, and
`WriteCreatedContracts` writes two lines. -/
theorem LogCreate_distinct_code_objects :
    ((LogCreate freshStats Registry.init (exampleAddress 0) (exampleAddress 0) (some 1)
          (some 0)).bind
        (fun p => LogCreate p.1 p.2 (exampleAddress 0) (exampleAddress 0) (some 1)
          (some 1))).map (fun p => p.1.create.entries) =
      some [(⟨0, 0, "1", some 0⟩, 1), (⟨0, 0, "1", some 1⟩, 1)] ∧
    (((LogCreate freshStats Registry.init (exampleAddress 0) (exampleAddress 0) (some 1)
          (some 0)).bind
        (fun p => LogCreate p.1 p.2 (exampleAddress 0) (exampleAddress 0) (some 1)
          (some 1))).bind
        (fun p => WriteCreatedContracts (fun _ => []) p.1)).map
      (fun s => s.LogCreatedContractsFile) = some (some "0 0x\n0 0x\n") := by
  constructor <;> decide

/-- C19, amended. Two `LogCreate` calls with the same from, to and value on an empty
creation bucket leave one key of count 2 when the two code arguments are the
same pointer, and two keys of count 1 each when they are two pointers, whatever
bytes these point to: the key holds the pointer, not the bytes. -/
theorem LogCreate_twice (s : Stats) (r : Registry) (a b : Address) (v : BigInt)
    (c1 c2 : Option Nat) (hs : s.canLog) (hempty : s.create.len = 0) :
    ∃ f t s1 r1 s2 r2, LogCreate s r a b v c1 = some (s1, r1) ∧
      LogCreate s1 r1 a b v c2 = some (s2, r2) ∧
      (c1 = c2 → s2.create.entries = [(⟨f, t, v.String, c1⟩, 2)]) ∧
      (c1 ≠ c2 →
        s2.create.entries = [(⟨f, t, v.String, c1⟩, 1), (⟨f, t, v.String, c2⟩, 1)]) := by
  have hk : createType ∈ allKinds := by decide
  obtain ⟨f, t, s1, r1, s2, r2, h1, h2, ⟨x, hx⟩, ra, rb⟩ := resolve_pair s r a b hs
  have hop1 : LogCreate s r a b v c1 = _ := logOp_eq hk v c1 h1 h2
  have hb2 : (s2.bucket createType).entries = [] := by
    rw [hx, bucket_idMappingsFile]
    exact List.eq_nil_of_length_eq_zero hempty
  have he1 := entries_incr_nil (s2.bucket createType) (recordOf createType f t v c1) hb2
  have hop2 : LogCreate (s2.withBucket createType
      (incr (s2.bucket createType) (recordOf createType f t v c1))) r2 a b v c2 = _ :=
    logOp_eq hk v c2 (getID_resolved (resolved_withBucket _ _ ra))
      (getID_resolved (resolved_withBucket _ _ rb))
  refine ⟨f, t, _, _, _, _, hop1, hop2, ?_, ?_⟩
  · intro hc
    subst hc
    show (Stats.bucket _ createType).entries = _
    rw [bucket_withBucket_self hk, bucket_withBucket_self hk]
    exact entries_incr_single _ _ 1 he1
  · intro hc
    show (Stats.bucket _ createType).entries = _
    rw [bucket_withBucket_self hk, bucket_withBucket_self hk]
    refine entries_incr_other _ _ _ 1 he1 ?_
    intro h
    apply hc
    simp only [recordOf, createType, logStruct.mk.injEq] at h
    exact h.2.2.2

/-! ## `SetNextId` on a registry that is not empty -/

theorem SetNextIdLoop_seen (lines : List String) :
    ∀ (r : Registry) (seen : List Address),
      (∀ a v, a ∈ seen → r.idMapping.get? a = some v → v < r.nextID) →
      (∀ a b v, a ∈ seen → b ∈ seen → r.idMapping.get? a = some v →
        r.idMapping.get? b = some v → a = b) →
      r.nextID + lines.length < 2 ^ 64 →
      (∀ a v, (a ∈ seen ∨ a ∈ lines.map HexToAddress) →
        (SetNextIdLoop lines r).idMapping.get? a = some v →
        v < (SetNextIdLoop lines r).nextID) ∧
      (∀ a b v, (a ∈ seen ∨ a ∈ lines.map HexToAddress) →
        (b ∈ seen ∨ b ∈ lines.map HexToAddress) →
        (SetNextIdLoop lines r).idMapping.get? a = some v →
        (SetNextIdLoop lines r).idMapping.get? b = some v → a = b) ∧
      (SetNextIdLoop lines r).nextID = r.nextID + lines.length ∧
      (∀ a, (SetNextIdLoop lines r).idMapping.get? a ≠ none →
        r.idMapping.get? a ≠ none ∨ a ∈ lines.map HexToAddress) := by
  induction lines with
  | nil =>
    intro r seen h1 h2 _
    refine ⟨?_, ?_, rfl, fun a h => Or.inl h⟩
    · intro a v ha
      simp only [List.map_nil, List.not_mem_nil, or_false] at ha
      exact h1 a v ha
    · intro a b v ha hb
      simp only [List.map_nil, List.not_mem_nil, or_false] at ha hb
      exact h2 a b v ha hb
  | cons line rest ih =>
    intro r seen h1 h2 hb
    simp only [List.length_cons] at hb
    have hb1 : r.nextID + 1 < 2 ^ 64 := by omega
    have hn1 : (r.nextID + 1) % 2 ^ 64 = r.nextID + 1 := Nat.mod_eq_of_lt hb1
    have g1 : ∀ a v, a ∈ HexToAddress line :: seen →
        (⟨(r.nextID + 1) % 2 ^ 64, r.idMapping.set (HexToAddress line) r.nextID⟩ :
          Registry).idMapping.get? a = some v →
        v < (⟨(r.nextID + 1) % 2 ^ 64, r.idMapping.set (HexToAddress line) r.nextID⟩ :
          Registry).nextID := by
      intro a v ha hv
      show v < (r.nextID + 1) % 2 ^ 64
      rw [hn1]
      have hv2 : (r.idMapping.set (HexToAddress line) r.nextID).get? a = some v := hv
      rw [GoMap.get?_set] at hv2
      split at hv2
      · simp only [Option.some.injEq] at hv2
        omega
      · rename_i hne
        rcases List.mem_cons.mp ha with h | h
        · exact absurd h hne
        · have := h1 a v h hv2
          omega
    have g2 : ∀ a b v, a ∈ HexToAddress line :: seen → b ∈ HexToAddress line :: seen →
        (⟨(r.nextID + 1) % 2 ^ 64, r.idMapping.set (HexToAddress line) r.nextID⟩ :
          Registry).idMapping.get? a = some v →
        (⟨(r.nextID + 1) % 2 ^ 64, r.idMapping.set (HexToAddress line) r.nextID⟩ :
          Registry).idMapping.get? b = some v → a = b := by
      intro a b v ha hb2 hva hvb
      have hva2 : (r.idMapping.set (HexToAddress line) r.nextID).get? a = some v := hva
      have hvb2 : (r.idMapping.set (HexToAddress line) r.nextID).get? b = some v := hvb
      rw [GoMap.get?_set] at hva2 hvb2
      split at hva2 <;> split at hvb2
      · simp_all
      · rename_i hea hne
        simp only [Option.some.injEq] at hva2
        rcases List.mem_cons.mp hb2 with h | h
        · exact absurd h hne
        · have := h1 b v h hvb2
          omega
      · rename_i hne heb
        simp only [Option.some.injEq] at hvb2
        rcases List.mem_cons.mp ha with h | h
        · exact absurd h hne
        · have := h1 a v h hva2
          omega
      · rename_i hnea hneb
        rcases List.mem_cons.mp ha with h | h
        · exact absurd h hnea
        · rcases List.mem_cons.mp hb2 with h3 | h3
          · exact absurd h3 hneb
          · exact h2 a b v h h3 hva2 hvb2
    obtain ⟨k1, k2, k3, k4⟩ := ih _ (HexToAddress line :: seen) g1 g2
      (by simp only [hn1]; omega)
    have hmem : ∀ a, (a ∈ seen ∨ a ∈ (line :: rest).map HexToAddress) →
        (a ∈ HexToAddress line :: seen ∨ a ∈ rest.map HexToAddress) := by
      intro a ha
      simp only [List.map_cons, List.mem_cons] at ha ⊢
      tauto
    simp only [SetNextIdLoop]
    refine ⟨fun a v ha => k1 a v (hmem a ha), fun a b v ha hb2 => k2 a b v (hmem a ha)
      (hmem b hb2), ?_, ?_⟩
    · rw [k3]
      simp only [hn1, List.length_cons]
      omega
    · intro a ha
      rcases k4 a ha with h | h
      · have h7 : (r.idMapping.set (HexToAddress line) r.nextID).get? a ≠ none := h
        rw [GoMap.get?_set] at h7
        split at h7
        · rename_i heq
          right
          simp [heq]
        · left
          exact h7
      · right
        exact List.mem_cons_of_mem _ h

/-- C20, the claim as stated fails: the registry that holds the address 1 with the
identifier 0 and `nextID` 1 satisfies the invariant; `SetNextId` on the
one-line store `02` sets the counter back to 0 and keeps the map, so the
address 2 gets the identifier 0 as well. -/
theorem SetNextId_on_used_registry_collides :
    exampleRegistry.invariant ∧
    (SetNextId "02\n" exampleRegistry).idMapping.get? (exampleAddress 1) = some 0 ∧
    (SetNextId "02\n" exampleRegistry).idMapping.get? (exampleAddress 2) = some 0 ∧
    exampleAddress 1 ≠ exampleAddress 2 ∧
    ¬ (SetNextId "02\n" exampleRegistry).invariant := by
  have h1 : (SetNextId "02\n" exampleRegistry).idMapping.get? (exampleAddress 1) = some 0 := by
    decide
  have h2 : (SetNextId "02\n" exampleRegistry).idMapping.get? (exampleAddress 2) = some 0 := by
    decide
  have hne : exampleAddress 1 ≠ exampleAddress 2 := by decide
  refine ⟨Registry.invariant_assign Registry.invariant_init (exampleAddress 1) (by decide),
    h1, h2, hne, ?_⟩
  intro hinv
  exact hne (hinv.2 _ _ 0 h1 h2)

/-- C20, amended. From every registry all of whose addresses occur among the lines of
the mapping store (the empty registry is one), `SetNextId` leaves a registry that
satisfies the invariant, and so does every run of lookups with logging enabled
after it: no two addresses hold the same identifier and every identifier is
below `nextID`. -/
theorem SetNextId_restores_invariant (r : Registry) (text : String) (s : Stats)
    (xs : List Address)
    (hcov : ∀ a, r.idMapping.get? a ≠ none → a ∈ (scanLines text).map HexToAddress)
    (hs : s.enabled) (hb : (scanLines text).length + xs.length < 2 ^ 64) :
    (SetNextId text r).invariant ∧
    ∃ ids s2 r2, getIDs xs s (SetNextId text r) = some (ids, s2, r2) ∧ r2.invariant ∧
      ∀ a b i, r2.idMapping.get? a = some i → r2.idMapping.get? b = some i → a = b := by
  obtain ⟨k1, k2, k3, k4⟩ := SetNextIdLoop_seen (scanLines text) ⟨0, r.idMapping⟩ []
    (fun a v ha => absurd ha (List.not_mem_nil a))
    (fun a b v ha => absurd ha (List.not_mem_nil a))
    (by simp only [Nat.zero_add]; omega)
  have hkey : ∀ a v, (SetNextId text r).idMapping.get? a = some v →
      a ∈ (scanLines text).map HexToAddress := by
    intro a v hv
    rcases k4 a (by unfold SetNextId at hv; rw [hv]; simp) with h | h
    · exact hcov a h
    · exact h
  have hinv : (SetNextId text r).invariant := by
    constructor
    · intro a v hv
      exact k1 a v (Or.inr (hkey a v hv)) hv
    · intro a b v ha hb2
      exact k2 a b v (Or.inr (hkey a v ha)) (Or.inr (hkey b v hb2)) ha hb2
  have hn : (SetNextId text r).nextID = (scanLines text).length := by
    unfold SetNextId
    rw [k3]
    simp
  obtain ⟨ids, s2, r2, hrun, _, hr2, _, _, _⟩ :=
    getIDs_spec xs s (SetNextId text r) hs hinv (by rw [hn]; exact hb)
  exact ⟨hinv, ids, s2, r2, hrun, hr2, hr2.2⟩

/-! ## The writers in the disabled mode, and the created-contracts file -/

/-- C14, the code at the failing inputs.  `NewStats` with every target absent sets
`dontLog`, and then `WriteCalls`, `WriteGenesis` and `WriteCreatedContracts` panic
on the nil writer instead of returning.  `NewStats` with the blocks target
alone absent sets `dontLog` too, and then `WriteCalls` appends the header line
to the transactions target, `WriteCreatedContracts` returns, and
`WriteBlockHeader` appends the block line to the writer it is given. -/
theorem writers_ignore_dontLog :
    (NewStats none none none none).dontLog = true ∧
    (WriteCalls (NewStats none none none none)).isNone = true ∧
    (WriteGenesis (fun _ => []) (NewStats none none none none) Registry.init
      GoMap.empty).isNone = true ∧
    (WriteCreatedContracts (fun _ => []) (NewStats none none none none)).isNone = true ∧
    (NewStats none (some "") (some "") (some "")).dontLog = true ∧
    (WriteCalls (NewStats none (some "") (some "") (some ""))).map
      (fun s => s.LogTransactionsFile) = some (some "T 0 0 0\n") ∧
    (WriteCreatedContracts (fun _ => []) (NewStats none (some "") (some "") (some ""))).map
      (fun s => s.LogCreatedContractsFile) = some (some "") ∧
    (WriteBlockHeader (NewStats none (some "") (some "") (some "")) Registry.init (some "")
      ⟨1, some 2, 3, 4, 5⟩ 6).map (fun p => p.1) = some (some "B 1 2 3 4 5 0 6\n") := by
  refine ⟨by decide, by decide, by decide, by decide, by decide, by decide, by decide,
    by decide⟩

theorem WriteCreatedContractsLoop_eq (heap : Nat → List Byte) (keys : List logStruct) :
    ∀ out : String, (∀ k ∈ keys, k.code ≠ none) →
      WriteCreatedContractsLoop heap keys out =
        some (out ++ joinLines (keys.map (contractLine heap))) := by
  induction keys with
  | nil =>
    intro out _
    simp [WriteCreatedContractsLoop, joinLines]
  | cons k rest ih =>
    intro out hcode
    have hk := hcode k (List.mem_cons_self _ _)
    cases hc : k.code with
    | none => exact absurd hc hk
    | some p =>
      simp only [WriteCreatedContractsLoop, hc, List.map_cons, joinLines]
      rw [ih _ (fun k2 h2 => hcode k2 (List.mem_cons_of_mem _ h2))]
      simp only [contractLine, hc, Option.getD_some, String.append_assoc]

/-- C16. On a `Stats` with a created-contracts target whose creation records all have
a code pointer, `WriteCreatedContracts` appends one line for each key of the
creation bucket (each distinct record), `<to> 0x<hex of the code>`.  After
`LogCreate(from, to, value, code)` on a `Stats` fresh from `NewStats`, whatever the
other three targets are, that is the single line of the identifier `getID`
resolved for `to` and the hex of the code. -/
theorem WriteCreatedContracts_lines (heap : Nat → List Byte) (stats : Stats) (cc : String)
    (hcc : stats.LogCreatedContractsFile = some cc)
    (hcode : ∀ k ∈ stats.create.keys, k.code ≠ none) :
    WriteCreatedContracts heap stats = some
      { stats with LogCreatedContractsFile := some (cc ++
          joinLines (stats.create.keys.map (contractLine heap))) } ∧
    (stats.create.keys.map (contractLine heap)).length = stats.create.len ∧
    stats.create.keys.Nodup ∧
    ∀ (lb lt im : Option String) (cc0 : String) (r : Registry) (a b : Address) (v : BigInt)
      (p : Nat),
      ∃ f t s1 r1 s2 r2 s3, getID (NewStats lb lt (some cc0) im) r a = some (f, s1, r1) ∧
        getID s1 r1 b = some (t, s2, r2) ∧
        LogCreate (NewStats lb lt (some cc0) im) r a b v (some p) = some (s3, r2) ∧
        WriteCreatedContracts heap s3 = some
          { s3 with LogCreatedContractsFile := some (cc0 ++
              (toString t ++ " 0x" ++ String.mk (fmtHexBytes (heap p)) ++ "\n")) } := by
  refine ⟨?_, ?_, stats.create.nodup, ?_⟩
  · unfold WriteCreatedContracts
    rw [hcc]
    simp only [WriteCreatedContractsLoop_eq heap _ cc hcode]
  · simp [GoMap.keys, GoMap.len]
  · intro lb lt im cc0 r a b v p
    have hk : createType ∈ allKinds := by decide
    have hs : (NewStats lb lt (some cc0) im).canLog := by
      unfold Stats.canLog NewStats
      cases im <;> simp
    obtain ⟨f, t, s1, r1, s2, r2, h1, h2, ⟨x, hx⟩, _, _⟩ :=
      resolve_pair (NewStats lb lt (some cc0) im) r a b hs
    have hop : LogCreate (NewStats lb lt (some cc0) im) r a b v (some p) = _ :=
      logOp_eq hk v (some p) h1 h2
    have hb2 : (s2.bucket createType).entries = [] := by
      rw [hx, bucket_idMappingsFile]
      rfl
    have he := entries_incr_nil (s2.bucket createType) (recordOf createType f t v (some p)) hb2
    refine ⟨f, t, s1, r1, s2, r2, _, h1, h2, hop, ?_⟩
    have hcreate : (s2.withBucket createType (incr (s2.bucket createType)
        (recordOf createType f t v (some p)))).create.keys =
        [recordOf createType f t v (some p)] := by
      show (Stats.bucket _ createType).keys = _
      rw [bucket_withBucket_self hk]
      unfold GoMap.keys
      rw [he]
      rfl
    have hfile : (s2.withBucket createType (incr (s2.bucket createType)
        (recordOf createType f t v (some p)))).LogCreatedContractsFile = some cc0 := by
      rw [hx]
      rfl
    unfold WriteCreatedContracts
    rw [hfile, hcreate]
    simp only [WriteCreatedContractsLoop, recordOf, createType, String.append_assoc]

/-! ## The block header line -/

theorem digitChar_ne (n : Nat) : Nat.digitChar n ≠ ' ' ∧ Nat.digitChar n ≠ '\n' := by
  by_cases h : n < 16
  · interval_cases n <;> exact ⟨by decide, by decide⟩
  · have hstar : Nat.digitChar n = '*' := by
      unfold Nat.digitChar
      repeat rw [if_neg (by omega)]
    rw [hstar]
    exact ⟨by decide, by decide⟩

theorem toDigitsCore_chars (fuel : Nat) :
    ∀ (n : Nat) (ds : List Char), (∀ c ∈ ds, c ≠ ' ' ∧ c ≠ '\n') →
      ∀ c ∈ Nat.toDigitsCore 10 fuel n ds, c ≠ ' ' ∧ c ≠ '\n' := by
  induction fuel with
  | zero =>
    intro n ds h c hc
    simp only [Nat.toDigitsCore] at hc
    exact h c hc
  | succ fuel ih =>
    intro n ds h c hc
    have hds : ∀ c ∈ Nat.digitChar (n % 10) :: ds, c ≠ ' ' ∧ c ≠ '\n' := by
      intro c2 hc2
      rcases List.mem_cons.mp hc2 with h2 | h2
      · rw [h2]
        exact digitChar_ne _
      · exact h c2 h2
    simp only [Nat.toDigitsCore] at hc
    split at hc
    · exact hds c hc
    · exact ih _ _ hds c hc

theorem isField_toString_nat (n : Nat) : isField (toString n) := by
  have h := toDigitsCore_chars (n + 1) n [] (fun c hc => absurd hc (List.not_mem_nil c))
  have hd : (toString n).data = Nat.toDigits 10 n := rfl
  unfold isField
  rw [hd]
  exact ⟨fun hc => (h _ hc).1 rfl, fun hc => (h _ hc).2 rfl⟩

theorem isField_toString_int (i : Int) : isField (toString i) := by
  cases i with
  | ofNat m => exact isField_toString_nat m
  | negSucc m =>
    have h := isField_toString_nat (m + 1)
    have hd : (toString (Int.negSucc m)).data = '-' :: (toString (m + 1)).data := rfl
    unfold isField at h ⊢
    rw [hd]
    simp only [List.mem_cons, not_or]
    exact ⟨⟨by decide, h.1⟩, ⟨by decide, h.2⟩⟩

theorem isField_BigInt_String (v : BigInt) : isField v.String := by
  cases v with
  | none => decide
  | some i => exact isField_toString_int i

theorem rewardFields_spec (rewards : List CoinbaseReward) :
    ∀ ids : List Nat, ids.length = rewards.length →
      (rewardFields ids rewards).length = 2 * rewards.length ∧
      ∀ f ∈ rewardFields ids rewards, isField f := by
  induction rewards with
  | nil =>
    intro ids _
    cases ids <;> simp [rewardFields]
  | cons c rest ih =>
    intro ids hlen
    cases ids with
    | nil => simp at hlen
    | cons i ids =>
      simp only [List.length_cons, Nat.add_right_cancel_iff] at hlen
      obtain ⟨h1, h2⟩ := ih ids hlen
      refine ⟨?_, ?_⟩
      · simp only [rewardFields, List.length_cons, h1]
        omega
      · intro f hf
        simp only [rewardFields, List.mem_cons] at hf
        rcases hf with rfl | rfl | hf
        · exact isField_toString_nat i
        · exact isField_BigInt_String _
        · exact h2 f hf

theorem spaced_append (l1 l2 : List String) : spaced (l1 ++ l2) = spaced l1 ++ spaced l2 := by
  induction l1 with
  | nil => simp [spaced]
  | cons f rest ih => simp [spaced, ih, String.append_assoc]

theorem getIDs_canLog (xs : List Address) :
    ∀ (s : Stats) (r : Registry), s.canLog →
      ∃ ids s2 r2, getIDs xs s r = some (ids, s2, r2) ∧ ids.length = xs.length ∧ s2.canLog := by
  induction xs with
  | nil =>
    intro s r hs
    exact ⟨[], s, r, rfl, rfl, hs⟩
  | cons a rest ih =>
    intro s r hs
    obtain ⟨i, s1, r1, h1, _, hs1, _, _⟩ := getID_canLog s r a hs
    obtain ⟨ids, s2, r2, h2, hlen, hs2⟩ := ih s1 r1 hs1
    refine ⟨i :: ids, s2, r2, ?_, ?_, hs2⟩
    · simp only [getIDs, h1, h2]
    · simp [hlen]

theorem WriteBlockHeaderLoop_eq (rewards : List CoinbaseReward) :
    ∀ (out : String) (s : Stats) (r : Registry) (ids : List Nat) (s2 : Stats) (r2 : Registry),
      getIDs (rewards.map (fun c => c.Coinbase)) s r = some (ids, s2, r2) →
      WriteBlockHeaderLoop rewards out s r =
        some (out ++ spaced (rewardFields ids rewards), s2, r2) := by
  induction rewards with
  | nil =>
    intro out s r ids s2 r2 h
    simp only [List.map_nil, getIDs, Option.some.injEq, Prod.mk.injEq] at h
    obtain ⟨h1, h2, h3⟩ := h
    subst h1 h2 h3
    simp [WriteBlockHeaderLoop, rewardFields, spaced]
  | cons c rest ih =>
    intro out s r ids s2 r2 h
    simp only [List.map_cons, getIDs] at h
    cases h1 : getID s r c.Coinbase with
    | none => simp [h1] at h
    | some p1 =>
      obtain ⟨i, s1, r1⟩ := p1
      simp only [h1] at h
      cases h2 : getIDs (rest.map (fun c => c.Coinbase)) s1 r1 with
      | none => simp [h2] at h
      | some p2 =>
        obtain ⟨is, s3, r3⟩ := p2
        simp only [h2, Option.some.injEq, Prod.mk.injEq] at h
        obtain ⟨e1, e2, e3⟩ := h
        subst e1 e2 e3
        simp only [WriteBlockHeaderLoop, h1, ih _ _ _ _ _ _ h2, rewardFields, spaced,
          String.append_assoc]

/-- C17. On a `Stats` on which `getID` does not panic and for a writer with the text
`t`, `WriteBlockHeader` appends one line: the fields `B`, number, time, gas used,
gas limit, size, the number r of coinbase rewards, then for each reward in
list order the identifier `getID` resolves for its coinbase and the reward, then
the transaction count, with one space between two fields and a newline at the
end.  There are 7 + 2r + 1 fields, and no field holds a space or a newline. -/
theorem WriteBlockHeader_line (stats : Stats) (r : Registry) (t : String) (block : Block)
    (nTransactions : Int) (hs : stats.canLog) :
    ∃ ids s2 r2,
      getIDs (stats.coinbaseReward.map (fun c => c.Coinbase)) stats r = some (ids, s2, r2) ∧
      ids.length = stats.coinbaseReward.length ∧
      WriteBlockHeader stats r (some t) block nTransactions =
        some (some (t ++ joinFields (blockFields block stats.coinbaseReward ids nTransactions)
          ++ "\n"), s2, r2) ∧
      (blockFields block stats.coinbaseReward ids nTransactions).length =
        7 + 2 * stats.coinbaseReward.length + 1 ∧
      (∀ f ∈ blockFields block stats.coinbaseReward ids nTransactions, isField f) ∧
      (∀ rewards, (SetCoinbaseReward stats rewards).coinbaseReward = rewards) := by
  obtain ⟨ids, s2, r2, hrun, hlen, _⟩ :=
    getIDs_canLog (stats.coinbaseReward.map (fun c => c.Coinbase)) stats r hs
  rw [List.length_map] at hlen
  obtain ⟨hrl, hrf⟩ := rewardFields_spec stats.coinbaseReward ids hlen
  refine ⟨ids, s2, r2, hrun, hlen, ?_, ?_, ?_, fun _ => rfl⟩
  · have hB : ("B " : String) = "B" ++ " " := rfl
    unfold WriteBlockHeader
    simp only [hB, WriteBlockHeaderLoop_eq _ _ _ _ _ _ _ hrun, blockFields, joinFields, spaced,
      spaced_append, List.cons_append, List.nil_append, String.append_assoc,
      String.append_empty]
  · simp only [blockFields, List.length_append, List.length_cons, List.length_nil, hrl]
  · intro f hf
    simp only [blockFields, List.mem_append, List.mem_cons, List.mem_singleton,
      List.not_mem_nil, or_false] at hf
    rcases hf with ((rfl | rfl | rfl | rfl | rfl | rfl | rfl) | hf) | rfl
    · decide
    · exact isField_toString_int _
    · exact isField_BigInt_String _
    · exact isField_toString_nat _
    · exact isField_toString_nat _
    · exact isField_toString_nat _
    · exact isField_toString_nat _
    · exact hrf f hf
    · exact isField_toString_int _

/-! ## The genesis file -/

theorem fromHexChar_checksumChar (n : Nat) (h : n < 16) (hashByte : Nat) :
    fromHexChar (checksumChar (hexDigit n) hashByte) = some n := by
  unfold checksumChar
  by_cases hb : hashByte > 7
  · simp only [hb, decide_True, Bool.and_true]
    interval_cases n <;> decide
  · simp only [hb, decide_False, Bool.and_false, Bool.false_eq_true, if_false]
    exact fromHexChar_hexDigit n h

theorem utf8Size_checksumChar (n : Nat) (h : n < 16) (hashByte : Nat) :
    (checksumChar (hexDigit n) hashByte).utf8Size = 1 := by
  unfold checksumChar
  by_cases hb : hashByte > 7
  · simp only [hb, decide_True, Bool.and_true]
    interval_cases n <;> decide
  · simp only [hb, decide_False, Bool.and_false, Bool.false_eq_true, if_false]
    exact utf8Size_hexDigit n h

theorem Hex2Bytes_checksumChars (hash : List Byte) (bs : List Byte) :
    ∀ i : Nat, Hex2Bytes (checksumChars hash i (fmtHexBytes bs)) = bs ∧
      byteLen (checksumChars hash i (fmtHexBytes bs)) = 2 * bs.length := by
  induction bs with
  | nil =>
    intro i
    exact ⟨rfl, rfl⟩
  | cons b rest ih =>
    intro i
    have h1 : b.val / 16 < 16 := by omega
    have h2 : b.val % 16 < 16 := by omega
    obtain ⟨ih1, ih2⟩ := ih (i + 1 + 1)
    constructor
    · simp only [fmtHexBytes, checksumChars, Hex2Bytes, fromHexChar_checksumChar _ h1,
        fromHexChar_checksumChar _ h2, ih1]
      congr 1
      apply Fin.ext
      simp [Fin.ofNat]
      omega
    · simp only [fmtHexBytes, checksumChars, byteLen_cons, utf8Size_checksumChar _ h1,
        utf8Size_checksumChar _ h2, ih2, List.length_cons]
      omega

theorem HexToAddress_Hex (Keccak256 : List Char → List Byte) (a : Address) :
    HexToAddress (a.Hex Keccak256) = a := by
  obtain ⟨h1, h2⟩ := Hex2Bytes_checksumChars (Keccak256 (fmtHexBytes a.bytes)) a.bytes 0
  have hd : (a.Hex Keccak256).data = '0' :: 'x' ::
      checksumChars (Keccak256 (fmtHexBytes a.bytes)) 0 (fmtHexBytes a.bytes) := rfl
  unfold HexToAddress FromHex
  rw [hd]
  simp only [h2]
  have : ¬ (2 * a.bytes.length % 2 = 1) := by omega
  simp only [this, if_false, h1]
  exact BytesToAddress_bytes a

/-! ### The order of strings -/

theorem stringLess_asymm (a : List Char) :
    ∀ b : List Char, stringLess a b = true → stringLess b a = false := by
  induction a with
  | nil =>
    intro b _
    cases b <;> rfl
  | cons c cs ih =>
    intro b h
    cases b with
    | nil => simp [stringLess] at h
    | cons d ds =>
      simp only [stringLess] at h ⊢
      by_cases h1 : c < d
      · have h2 : ¬ d < c := lt_asymm h1
        simp [h1, h2]
      · by_cases h2 : d < c
        · simp [h1, h2] at h
        · simp only [h1, h2, if_false] at h ⊢
          exact ih ds h

theorem stringLess_total (a : List Char) :
    ∀ b : List Char, stringLess a b = false → stringLess b a = false → a = b := by
  induction a with
  | nil =>
    intro b h _
    cases b with
    | nil => rfl
    | cons d ds => simp [stringLess] at h
  | cons c cs ih =>
    intro b h1 h2
    cases b with
    | nil => simp [stringLess] at h2
    | cons d ds =>
      simp only [stringLess] at h1 h2
      by_cases hcd : c < d
      · simp [hcd] at h1
      · by_cases hdc : d < c
        · simp [hdc] at h2
        · simp only [hcd, hdc, if_false] at h1 h2
          have hc : c = d := le_antisymm (not_lt.mp hdc) (not_lt.mp hcd)
          rw [hc, ih ds h1 h2]

theorem stringLess_trans (a : List Char) :
    ∀ b c : List Char, stringLess a b = false → stringLess b c = false →
      stringLess a c = false := by
  induction a with
  | nil =>
    intro b c h1 h2
    cases b with
    | nil => exact h2
    | cons d ds => simp [stringLess] at h1
  | cons x xs ih =>
    intro b c h1 h2
    cases c with
    | nil => rfl
    | cons z zs =>
      cases b with
      | nil => simp [stringLess] at h2
      | cons y ys =>
        simp only [stringLess] at h1 h2 ⊢
        by_cases hxy : x < y
        · simp [hxy] at h1
        · by_cases hyz : y < z
          · simp [hyz] at h2
          · have hzy : z ≤ y := not_lt.mp hyz
            have hyx : y ≤ x := not_lt.mp hxy
            by_cases hxz : x < z
            · exact absurd (lt_of_lt_of_le hxz (le_trans hzy hyx)) (lt_irrefl x)
            · simp only [hxz, if_false]
              by_cases hzx : z < x
              · simp [hzx]
              · simp only [hzx, if_false]
                have hxz2 : x = z := le_antisymm (not_lt.mp hzx) (not_lt.mp hxz)
                have hyx2 : y = x := le_antisymm hyx (by rw [hxz2]; exact hzy)
                have hyz2 : ¬ z < y := by rw [hyx2, hxz2]; exact lt_irrefl z
                have hyx3 : ¬ y < x := by rw [hyx2]; exact lt_irrefl x
                simp only [hxy, hyx3, hyz, hyz2, if_false] at h1 h2
                exact ih ys zs h1 h2

theorem sortStrings_perm (keys : List String) : (sortStrings keys).Perm keys :=
  sortSort_perm _ keys

theorem sortStrings_sorted (keys : List String) :
    (sortStrings keys).Pairwise (fun a b => stringLess b.data a.data = false) :=
  sortSort_pairwise _ (fun a b => stringLess_asymm a.data b.data)
    (fun a b c => stringLess_trans a.data b.data c.data) keys

theorem sortStrings_eq_of_perm {l1 l2 : List String} (h : l1.Perm l2) :
    sortStrings l1 = sortStrings l2 := by
  haveI : IsAntisymm String (fun a b => stringLess b.data a.data = false) :=
    ⟨fun a b hab hba => String.ext (stringLess_total a.data b.data hba hab)⟩
  exact List.eq_of_perm_of_sorted
    ((sortStrings_perm l1).trans (h.trans (sortStrings_perm l2).symm))
    (sortStrings_sorted l1) (sortStrings_sorted l2)

theorem getID_LogBlocksFile (s : Stats) (r : Registry) (a : Address) (x : Option String)
    (i : Nat) (s1 : Stats) (r1 : Registry) (h : getID s r a = some (i, s1, r1)) :
    getID { s with LogBlocksFile := x } r a = some (i, { s1 with LogBlocksFile := x }, r1) := by
  rcases Bool.eq_false_or_eq_true s.dontLog with hd | hd
  · have h0 : getID s r a = some (0, s, r) := by
      unfold getID
      simp [hd]
    rw [h0] at h
    simp only [Option.some.injEq, Prod.mk.injEq] at h
    obtain ⟨e1, e2, e3⟩ := h
    subst e1 e2 e3
    unfold getID
    simp [hd]
  · rcases Option.eq_none_or_eq_some s.idMappingsFile with hf | ⟨f, hf⟩
    · unfold getID at h
      simp [hd, hf] at h
    · rcases Option.eq_none_or_eq_some (r.idMapping.get? a) with hv | ⟨v, hv⟩
      · rw [getID_fresh hd hf hv] at h
        simp only [Option.some.injEq, Prod.mk.injEq] at h
        obtain ⟨e1, e2, e3⟩ := h
        subst e1 e2 e3
        exact getID_fresh (s := { s with LogBlocksFile := x }) hd hf hv
      · rw [getID_known ⟨hd, by rw [hf]; simp⟩ hv] at h
        simp only [Option.some.injEq, Prod.mk.injEq] at h
        obtain ⟨e1, e2, e3⟩ := h
        subst e1 e2 e3
        exact getID_known (s := { s with LogBlocksFile := x }) ⟨hd, by simp [hf]⟩ hv

theorem WriteGenesisLoop_eq (genesis : GoMap Address BigInt) (keys : List String) :
    ∀ (s : Stats) (r : Registry) (x : String) (ids : List Nat) (s2 : Stats) (r2 : Registry),
      getIDs (keys.map HexToAddress) s r = some (ids, s2, r2) →
      WriteGenesisLoop genesis keys { s with LogBlocksFile := some x } r =
        some ({ s2 with LogBlocksFile := some (x ++
          joinLines (genesisLines genesis ids (keys.map HexToAddress))) }, r2) := by
  induction keys with
  | nil =>
    intro s r x ids s2 r2 h
    simp only [List.map_nil, getIDs, Option.some.injEq, Prod.mk.injEq] at h
    obtain ⟨h1, h2, h3⟩ := h
    subst h1 h2 h3
    simp [WriteGenesisLoop, genesisLines, joinLines]
  | cons k rest ih =>
    intro s r x ids s2 r2 h
    simp only [List.map_cons, getIDs] at h
    cases h1 : getID s r (HexToAddress k) with
    | none => simp [h1] at h
    | some p1 =>
      obtain ⟨i, s1, r1⟩ := p1
      simp only [h1] at h
      cases h2 : getIDs (rest.map HexToAddress) s1 r1 with
      | none => simp [h2] at h
      | some p2 =>
        obtain ⟨is, s3, r3⟩ := p2
        simp only [h2, Option.some.injEq, Prod.mk.injEq] at h
        obtain ⟨e1, e2, e3⟩ := h
        subst e1 e2 e3
        have hstep := getID_LogBlocksFile s r (HexToAddress k) (some x) i s1 r1 h1
        have hih := ih s1 r1 (x ++ toString i ++ " "
          ++ (genesis.getD (HexToAddress k) none).String ++ "\n") is s3 r3 h2
        simp only [WriteGenesisLoop, hstep, List.map_cons, genesisLines, joinLines]
        rw [hih]
        simp only [String.append_assoc]

theorem genesisLines_length (genesis : GoMap Address BigInt) (addrs : List Address) :
    ∀ ids : List Nat, ids.length = addrs.length →
      (genesisLines genesis ids addrs).length = addrs.length := by
  induction addrs with
  | nil =>
    intro ids _
    cases ids <;> rfl
  | cons a rest ih =>
    intro ids h
    cases ids with
    | nil => simp at h
    | cons i ids =>
      simp only [List.length_cons, Nat.add_right_cancel_iff] at h
      simp [genesisLines, ih ids h]

theorem WriteGenesisLoop_congr (g1 g2 : GoMap Address BigInt)
    (h : ∀ a, g1.get? a = g2.get? a) (keys : List String) :
    ∀ (s : Stats) (r : Registry), WriteGenesisLoop g1 keys s r = WriteGenesisLoop g2 keys s r := by
  induction keys with
  | nil =>
    intro s r
    rfl
  | cons k rest ih =>
    intro s r
    simp only [WriteGenesisLoop, GoMap.getD, h, ih]

theorem keys_perm_of_get? {V : Type} (g1 g2 : GoMap Address V)
    (h : ∀ a, g1.get? a = g2.get? a) : g1.keys.Perm g2.keys := by
  unfold GoMap.keys
  rw [List.perm_ext_iff_of_nodup g1.nodup g2.nodup]
  intro a
  have e1 := assocGet_eq_none_iff a g1.entries
  have e2 := assocGet_eq_none_iff a g2.entries
  have := h a
  unfold GoMap.get? at this
  constructor
  · intro ha
    by_contra hn
    rw [← e2, ← this, e1] at hn
    exact hn ha
  · intro ha
    by_contra hn
    rw [← e1, this, e2] at hn
    exact hn ha

/-- C15. For every allocation mapping, on a `Stats` with a blocks target on which
`getID` does not panic, `WriteGenesis` appends the line `G n`, n the number of
addresses, and then n lines, one for each address of the mapping, in ascending
order of the hex strings `Address.Hex` of the addresses; the line of an address
holds the identifier `getID` resolves for it (the lookups run in that order)
and the balance the mapping holds for that same address.  Two mappings with
the same content give the same result, whatever order they enumerate their
keys in. -/
theorem WriteGenesis_lines (Keccak256 : List Char → List Byte) (stats : Stats) (r : Registry)
    (genesis : GoMap Address BigInt) (t : String)
    (hlb : stats.LogBlocksFile = some t) (hs : stats.canLog) :
    ∃ addrs ids s2 r2,
      addrs = (sortStrings (genesis.keys.map (Address.Hex Keccak256))).map HexToAddress ∧
      addrs.Perm genesis.keys ∧
      addrs.Pairwise (fun a b =>
        stringLess (a.Hex Keccak256).data (b.Hex Keccak256).data = true) ∧
      getIDs addrs stats r = some (ids, s2, r2) ∧
      WriteGenesis Keccak256 stats r genesis =
        some ({ s2 with LogBlocksFile := some (t ++ "G " ++ toString genesis.len ++ "\n" ++
          joinLines (genesisLines genesis ids addrs)) }, r2) ∧
      (genesisLines genesis ids addrs).length = genesis.len ∧
      (∀ a ∈ addrs, ∃ v, genesis.get? a = some v ∧ genesis.getD a none = v) ∧
      (∀ genesis2 : GoMap Address BigInt, (∀ a, genesis2.get? a = genesis.get? a) →
        WriteGenesis Keccak256 stats r genesis2 = WriteGenesis Keccak256 stats r genesis) := by
  have hperm0 := sortStrings_perm (genesis.keys.map (Address.Hex Keccak256))
  have hmap : ((genesis.keys.map (Address.Hex Keccak256)).map HexToAddress) = genesis.keys := by
    rw [List.map_map]
    conv_rhs => rw [← List.map_id genesis.keys]
    apply List.map_congr_left
    intro a _
    exact HexToAddress_Hex Keccak256 a
  have hperm : ((sortStrings (genesis.keys.map (Address.Hex Keccak256))).map
      HexToAddress).Perm genesis.keys := by
    have := hperm0.map HexToAddress
    rw [hmap] at this
    exact this
  have hback : ∀ k ∈ sortStrings (genesis.keys.map (Address.Hex Keccak256)),
      (HexToAddress k).Hex Keccak256 = k := by
    intro k hk
    have hk2 := hperm0.mem_iff.mp hk
    obtain ⟨a, _, rfl⟩ := List.mem_map.mp hk2
    rw [HexToAddress_Hex]
  have hnodup : ((sortStrings (genesis.keys.map (Address.Hex Keccak256))).map
      HexToAddress).Nodup := hperm.nodup_iff.mpr genesis.nodup
  obtain ⟨ids, s2, r2, hrun, hlen, _⟩ :=
    getIDs_canLog ((sortStrings (genesis.keys.map (Address.Hex Keccak256))).map HexToAddress)
      stats r hs
  refine ⟨_, ids, s2, r2, rfl, hperm, ?_, hrun, ?_, ?_, ?_, ?_⟩
  · have hs0 := sortStrings_sorted (genesis.keys.map (Address.Hex Keccak256))
    rw [List.pairwise_map]
    have hnd0 : (sortStrings (genesis.keys.map (Address.Hex Keccak256))).Nodup :=
      (List.Nodup.of_map HexToAddress hnodup)
    have hboth := List.Pairwise.and hs0 hnd0
    have hmem := List.Pairwise.and_mem.mp hboth
    refine List.Pairwise.imp ?_ hmem
    intro a b hab
    obtain ⟨ha, hb, hle, hne⟩ := hab
    rw [hback a ha, hback b hb]
    cases hlt : stringLess a.data b.data
    · exact absurd (String.ext (stringLess_total a.data b.data hlt hle)) hne
    · rfl
  · unfold WriteGenesis
    rw [hlb]
    simp only
    rw [WriteGenesisLoop_eq genesis _ stats r _ ids s2 r2 hrun]
  · rw [genesisLines_length genesis _ ids hlen, List.length_map,
      (sortStrings_perm _).length_eq, List.length_map]
    simp [GoMap.keys, GoMap.len]
  · intro a ha
    have hk : a ∈ genesis.keys := hperm.mem_iff.mp ha
    cases hv : genesis.get? a with
    | none =>
      unfold GoMap.get? at hv
      rw [assocGet_eq_none_iff] at hv
      exact absurd hk hv
    | some v => exact ⟨v, rfl, by simp [GoMap.getD, hv]⟩
  · intro genesis2 h2
    have hkeys := keys_perm_of_get? genesis2 genesis h2
    have hlen2 : genesis2.len = genesis.len := by
      have := hkeys.length_eq
      simpa [GoMap.keys, GoMap.len] using this
    unfold WriteGenesis
    rw [hlb]
    simp only
    rw [hlen2, sortStrings_eq_of_perm (hkeys.map (Address.Hex Keccak256)),
      WriteGenesisLoop_congr genesis2 genesis h2]

/-! ## The later theorems at concrete inputs -/

/-- Two flushes of the `Stats` with the two tied call records: the first meets the
value 5 first, the second enumerates the same map with the value 7 first. -/
theorem WriteCalls_keeps_state_witness :
    tieStats57.LogTransactionsFile = some "" ∧
    ∃ s2 s4, WriteCalls tieStats57 = some s2 ∧
      s2.LogTransactionsFile = some "T 0 0 1\n1 2\n1 2 5 1\n1 2 7 1\n" ∧
      tieStats75Flushed.sameContent s2 ∧
      WriteCalls tieStats75Flushed = some s4 ∧
      s4.LogTransactionsFile = some ("T 0 0 1\n1 2\n1 2 5 1\n1 2 7 1\n" ++
        "T 0 0 1\n1 2\n1 2 7 1\n1 2 5 1\n") := by
  obtain ⟨out, s2, h1, h2, _, _, _, _, hout, hre⟩ :=
    WriteCalls_keeps_state tieStats57 "" rfl
  subst hout
  subst h2
  have hcall : tieStats75Flushed.call.sameContent tieStats57.call := by
    intro k
    show ((GoMap.empty.set tieRecord7 1).set tieRecord5 1 : Bucket).get? k =
      ((GoMap.empty.set tieRecord5 1).set tieRecord7 1 : Bucket).get? k
    simp only [GoMap.get?_set, GoMap.get?_empty]
    by_cases h5 : k = tieRecord5
    · subst h5
      decide
    · by_cases h7 : k = tieRecord7
      · subst h7
        decide
      · simp [h5, h7]
  have hsame : tieStats75Flushed.sameContent
      { tieStats57 with LogTransactionsFile := some ("" ++ (headerLine tieStats57 ++
        joinLines ((nonEmptyKinds tieStats57).map (fun k =>
          (toString k ++ " " ++ toString (tieStats57.bucket k).len ++ "\n") ++
            joinLines ((sortSort Less (tieStats57.bucket k).keys).map
              (recordLine (tieStats57.bucket k) k)))))) } :=
    ⟨fun _ => rfl, hcall, fun _ => rfl, fun _ => rfl, fun _ => rfl, fun _ => rfl,
      fun _ => rfl, rfl, rfl, rfl, by decide⟩
  obtain ⟨_, hw⟩ := hre tieStats75Flushed hsame
  exact ⟨rfl, _, _, h1, by decide, hsame, hw, by decide⟩

/-- The lookup of the address 7 on a `Stats` built without a blocks target. -/
theorem getID_disabled_witness :
    ((none : Option String) = none ∨ some "" = none ∨ some "" = none ∨ some "" = none) ∧
    (NewStats none (some "") (some "") (some "")).dontLog = true ∧
    getID (NewStats none (some "") (some "") (some "")) exampleRegistry (exampleAddress 7) =
      some (0, NewStats none (some "") (some "") (some ""), exampleRegistry) :=
  ⟨Or.inl rfl,
    getID_disabled none (some "") (some "") (some "") exampleRegistry (exampleAddress 7)
      (Or.inl rfl)⟩

/-- The allocation of 100 to `..ab` and 50 to `..0a`: `G 2`, then the line of `..0a`
and the line of `..ab`. -/
theorem WriteGenesis_lines_witness :
    freshStats.LogBlocksFile = some "" ∧ freshStats.canLog ∧
    (WriteGenesis exampleHash freshStats Registry.init exampleGenesis).map
      (fun p => p.1.LogBlocksFile) = some (some "G 2\n0 50\n1 100\n") ∧
    ∃ addrs ids s2 r2,
      addrs = (sortStrings (exampleGenesis.keys.map (Address.Hex exampleHash))).map
        HexToAddress ∧
      addrs.Perm exampleGenesis.keys ∧
      addrs.Pairwise (fun a b =>
        stringLess (a.Hex exampleHash).data (b.Hex exampleHash).data = true) ∧
      getIDs addrs freshStats Registry.init = some (ids, s2, r2) ∧
      WriteGenesis exampleHash freshStats Registry.init exampleGenesis =
        some ({ s2 with LogBlocksFile := some ("" ++ "G " ++ toString exampleGenesis.len ++
          "\n" ++ joinLines (genesisLines exampleGenesis ids addrs)) }, r2) ∧
      (genesisLines exampleGenesis ids addrs).length = exampleGenesis.len ∧
      (∀ a ∈ addrs, ∃ v, exampleGenesis.get? a = some v ∧ exampleGenesis.getD a none = v) ∧
      (∀ genesis2 : GoMap Address BigInt, (∀ a, genesis2.get? a = exampleGenesis.get? a) →
        WriteGenesis exampleHash freshStats Registry.init genesis2 =
          WriteGenesis exampleHash freshStats Registry.init exampleGenesis) :=
  ⟨rfl, by decide, by decide,
    WriteGenesis_lines exampleHash freshStats Registry.init exampleGenesis "" rfl (by decide)⟩

/-- The input of the test `TestWriteContract`: the single line `0 0x`. -/
theorem WriteCreatedContracts_lines_witness :
    createdStats.LogCreatedContractsFile = some "" ∧
    (∀ k ∈ createdStats.create.keys, k.code ≠ none) ∧
    ∃ s2, WriteCreatedContracts (fun _ => []) createdStats = some s2 ∧
      s2.LogCreatedContractsFile = some "0 0x\n" ∧
      ((LogCreate freshStats Registry.init (exampleAddress 0) (exampleAddress 0) (some 1)
          (some 0)).bind (fun p => WriteCreatedContracts (fun _ => []) p.1)).map
        (fun s => s.LogCreatedContractsFile) = some (some "0 0x\n") :=
  ⟨rfl, by decide, _,
    (WriteCreatedContracts_lines (fun _ => []) createdStats "" rfl (by decide)).1,
    by decide, by decide⟩

/-- The example block with two coinbase rewards and 2 transactions. -/
theorem WriteBlockHeader_line_witness :
    rewardStats.canLog ∧
    (WriteBlockHeader rewardStats Registry.init (some "") exampleBlock 2).map (fun p => p.1) =
      some (some "B 10 99 21000 30000 540 2 0 5 1 1 2\n") ∧
    ∃ ids s2 r2,
      getIDs (rewardStats.coinbaseReward.map (fun c => c.Coinbase)) rewardStats
        Registry.init = some (ids, s2, r2) ∧
      ids.length = rewardStats.coinbaseReward.length ∧
      WriteBlockHeader rewardStats Registry.init (some "") exampleBlock 2 =
        some (some ("" ++ joinFields (blockFields exampleBlock rewardStats.coinbaseReward ids 2)
          ++ "\n"), s2, r2) ∧
      (blockFields exampleBlock rewardStats.coinbaseReward ids 2).length =
        7 + 2 * rewardStats.coinbaseReward.length + 1 ∧
      (∀ f ∈ blockFields exampleBlock rewardStats.coinbaseReward ids 2, isField f) ∧
      (∀ rewards, (SetCoinbaseReward rewardStats rewards).coinbaseReward = rewards) :=
  ⟨by decide, by decide,
    WriteBlockHeader_line rewardStats Registry.init "" exampleBlock 2 (by decide)⟩

/-- The two tied records and a third record. -/
theorem Less_strict_weak_order_witness :
    (Less tieRecord5 tieRecord7 = true ↔
      tieRecord5.from_ < tieRecord7.from_ ∨
        (tieRecord5.from_ = tieRecord7.from_ ∧ tieRecord5.to_ < tieRecord7.to_)) ∧
    (tieRecord5.from_ = tieRecord7.from_ ∧ tieRecord5.to_ = tieRecord7.to_ →
      Less tieRecord5 tieRecord7 = false ∧ Less tieRecord7 tieRecord5 = false) ∧
    Less tieRecord5 tieRecord5 = false ∧
    (Less tieRecord5 tieRecord7 = true ∧ Less tieRecord7 ⟨3, 1, "9", none⟩ = true →
      Less tieRecord5 ⟨3, 1, "9", none⟩ = true) ∧
    ((Less tieRecord5 tieRecord7 = false ∧ Less tieRecord7 tieRecord5 = false) ∧
        (Less tieRecord7 ⟨3, 1, "9", none⟩ = false ∧
          Less ⟨3, 1, "9", none⟩ tieRecord7 = false) →
      Less tieRecord5 ⟨3, 1, "9", none⟩ = false ∧
        Less ⟨3, 1, "9", none⟩ tieRecord5 = false) :=
  Less_strict_weak_order tieRecord5 tieRecord7 ⟨3, 1, "9", none⟩

/-- Two `LogCreate` calls from the address 0 to the address 0 with the value 1 and the
code pointers 0 and 1. -/
theorem LogCreate_twice_witness :
    freshStats.canLog ∧ freshStats.create.len = 0 ∧
    ∃ f t s1 r1 s2 r2,
      LogCreate freshStats Registry.init (exampleAddress 0) (exampleAddress 0) (some 1)
        (some 0) = some (s1, r1) ∧
      LogCreate s1 r1 (exampleAddress 0) (exampleAddress 0) (some 1) (some 1) =
        some (s2, r2) ∧
      ((some 0 : Option Nat) = some 1 →
        s2.create.entries = [(⟨f, t, BigInt.String (some 1), some 0⟩, 2)]) ∧
      ((some 0 : Option Nat) ≠ some 1 →
        s2.create.entries = [(⟨f, t, BigInt.String (some 1), some 0⟩, 1),
          (⟨f, t, BigInt.String (some 1), some 1⟩, 1)]) :=
  ⟨by decide, by decide,
    LogCreate_twice freshStats Registry.init (exampleAddress 0) (exampleAddress 0) (some 1)
      (some 0) (some 1) (by decide) (by decide)⟩

/-- The registry that holds the address 1, and a store that names the addresses 1
and 2. -/
theorem SetNextId_restores_invariant_witness :
    (∀ a, exampleRegistry.idMapping.get? a ≠ none →
      a ∈ (scanLines "01\n02\n").map HexToAddress) ∧
    freshStats.enabled ∧
    (scanLines "01\n02\n").length + [exampleAddress 3, exampleAddress 1].length < 2 ^ 64 ∧
    (SetNextId "01\n02\n" exampleRegistry).invariant ∧
    ∃ ids s2 r2, getIDs [exampleAddress 3, exampleAddress 1] freshStats
        (SetNextId "01\n02\n" exampleRegistry) = some (ids, s2, r2) ∧ r2.invariant ∧
      ∀ a b i, r2.idMapping.get? a = some i → r2.idMapping.get? b = some i → a = b := by
  have hcov : ∀ a, exampleRegistry.idMapping.get? a ≠ none →
      a ∈ (scanLines "01\n02\n").map HexToAddress := by
    intro a ha
    have ha2 : (GoMap.empty.set (exampleAddress 1) 0 : GoMap Address Nat).get? a ≠ none := ha
    rw [GoMap.get?_set] at ha2
    split at ha2
    · rename_i h1
      rw [h1]
      decide
    · exact absurd (GoMap.get?_empty a) ha2
  exact ⟨hcov, by decide, by decide,
    SetNextId_restores_invariant exampleRegistry "01\n02\n" freshStats
      [exampleAddress 3, exampleAddress 1] hcov (by decide) (by decide)⟩

end Instrumenting
